import Mathlib

/-!
Verification of the pyzstd CFFI streaming engine (src/src/cffi/cffi_pyzstd.py).

Shallow embedding conventions:
* byte strings are `List Nat` (`Bytes`);
* the external zstd codec (an opaque collaborator in the spec) is modelled
  either abstractly — a `CCodec`/`DCodec` structure bundling a streaming step
  function together with the interface facts the wrapper relies on — or, for
  round-trip and witness theorems, by a concrete reference codec
  (`Modelled from the spec`);
* C-level loops are embedded with explicit fuel; running out of fuel yields
  `none` (divergence, a model artifact distinct from a Python exception);
* Python exceptions are `Except`-style error results carrying the state as
  mutated at raise time (Python `except` handlers observe that state).
-/

set_option autoImplicit false

namespace Pyzstd

/-- Byte strings: each element is one byte value. -/
abbrev Bytes := List Nat

/-! ## `_BlocksOutputBuffer` (cffi_pyzstd.py lines 104-213)

A block is modelled as its full contents (a list whose length is the allocated
size of the block); unwritten memory is modelled as zero bytes.  `OutBuf` models
the C `ZSTD_outBuffer` (`dst` is implicitly the last block of the list). -/

/-- The fixed geometric growth table `BUFFER_BLOCK_SIZE`. -/
def BUFFER_BLOCK_SIZE : List Nat :=
  [32*1024, 64*1024, 256*1024, 1024*1024, 4*1024*1024, 8*1024*1024,
   16*1024*1024, 16*1024*1024, 32*1024*1024, 32*1024*1024, 32*1024*1024,
   32*1024*1024, 64*1024*1024, 64*1024*1024, 128*1024*1024, 128*1024*1024,
   256*1024*1024]

/-- Models `ZSTD_outBuffer`: `size`/`pos` cursors into the current block. -/
structure OutBuf where
  size : Nat
  pos : Nat
  deriving DecidableEq, Repr

/-- Models `_BlocksOutputBuffer`: `self.list`, `self.allocated`, `self.max_length`. -/
structure BlocksBuf where
  blocks : List Bytes
  allocated : Nat
  maxLength : Int
  deriving DecidableEq, Repr

/-- `initAndGrow(out, max_length)` (lines 115-135). -/
def initAndGrow (max_length : Int) : BlocksBuf × OutBuf :=
  let block_size : Nat :=
    if 0 ≤ max_length ∧ max_length < (BUFFER_BLOCK_SIZE.headD 0 : Nat) then
      max_length.toNat
    else
      BUFFER_BLOCK_SIZE.headD 0
  (⟨[List.replicate block_size 0], block_size, max_length⟩, ⟨block_size, 0⟩)

/-- `initWithSize(out, init_size)` (lines 137-151); `max_length` becomes `-1`. -/
def initWithSize (init_size : Nat) : BlocksBuf × OutBuf :=
  (⟨[List.replicate init_size 0], init_size, -1⟩, ⟨init_size, 0⟩)

/-- `grow(out)` (lines 153-184): next table entry, clamped by `max_length`. -/
def growBuf (b : BlocksBuf) (out : OutBuf) : BlocksBuf × OutBuf :=
  let list_len := b.blocks.length
  let bs0 : Nat := BUFFER_BLOCK_SIZE.getD list_len (BUFFER_BLOCK_SIZE.getLastD 0)
  let block_size : Nat :=
    if 0 ≤ b.maxLength then
      let rest : Int := b.maxLength - (b.allocated : Int)
      if (bs0 : Int) > rest then rest.toNat else bs0
    else bs0
  (⟨b.blocks ++ [List.replicate block_size 0], b.allocated + block_size, b.maxLength⟩,
   ⟨block_size, 0⟩)

/-- `reachedMaxLength(out)` (lines 186-190). -/
def reachedMaxLength (b : BlocksBuf) : Bool :=
  (b.allocated : Int) == b.maxLength

/-- Writing `d` at offset `p` of a block (the codec writing into `out.dst+pos`). -/
def writeAt (l : Bytes) (p : Nat) (d : Bytes) : Bytes :=
  l.take p ++ d ++ l.drop (p + d.length)

/-- A codec output step: `bs` is what the codec wrote at `out.dst + out.pos`. -/
def bufWrite (b : BlocksBuf) (out : OutBuf) (bs : Bytes) : BlocksBuf × OutBuf :=
  ({ b with blocks := b.blocks.dropLast ++ [writeAt (b.blocks.getLastD []) out.pos bs] },
   { out with pos := out.pos + bs.length })

/-- `finish(out)` (lines 192-213): single-block fast paths, then the copy loop.
The copy loop copies exactly every block but the last, then `out.pos` bytes of
the last block, into a fresh `data_size`-byte result; we model the result as
those bytes in order. -/
def finish (b : BlocksBuf) (out : OutBuf) : Bytes :=
  if (b.blocks.length == 1 && out.pos == out.size) ||
     (b.blocks.length == 2 && out.pos == 0) then
    b.blocks.headD []
  else
    b.blocks.dropLast.flatten ++ (b.blocks.getLastD []).take out.pos

/-- The bytes written so far: all of every block but the last, plus the
`out.pos`-byte written part of the last block. -/
def writtenSoFar (b : BlocksBuf) (out : OutBuf) : Bytes :=
  b.blocks.dropLast.flatten ++ (b.blocks.getLastD []).take out.pos

/-- Structural well-formedness of a buffer: invariants the Python object
maintains (data-model section: every block except possibly the last is full;
the cursor lives inside the last block; `allocated` counts all blocks). -/
structure BufWF (b : BlocksBuf) (out : OutBuf) : Prop where
  ne : b.blocks ≠ []
  last_len : (b.blocks.getLastD []).length = out.size
  pos_le : out.pos ≤ out.size
  alloc : b.allocated = (b.blocks.map List.length).sum
  maxlen : 0 ≤ b.maxLength → (b.allocated : Int) ≤ b.maxLength

/-- States reachable by one init followed by any interleaving of codec writes
(each fitting in the current block) and grow calls (only at a full block with
room left under the cap) — exactly the call discipline of the engine loops. -/
inductive Reach : BlocksBuf → OutBuf → Prop where
  | initGrow (ml : Int) : Reach (initAndGrow ml).1 (initAndGrow ml).2
  | initSize (n : Nat) : Reach (initWithSize n).1 (initWithSize n).2
  | write (b : BlocksBuf) (out : OutBuf) (bs : Bytes) :
      Reach b out → out.pos + bs.length ≤ out.size →
      Reach (bufWrite b out bs).1 (bufWrite b out bs).2
  | grow (b : BlocksBuf) (out : OutBuf) :
      Reach b out → out.pos = out.size → reachedMaxLength b = false →
      Reach (growBuf b out).1 (growBuf b out).2

theorem length_writeAt (l : Bytes) (p : Nat) (d : Bytes) (h : p + d.length ≤ l.length) :
    (writeAt l p d).length = l.length := by
  simp only [writeAt, List.length_append, List.length_take, List.length_drop]
  omega

theorem self_eq_dropLast_snoc (l : List Bytes) (h : l ≠ []) :
    l.dropLast ++ [l.getLastD []] = l := by
  induction l with
  | nil => cases h rfl
  | cons a t ih =>
    cases t with
    | nil => simp
    | cons b t2 =>
      have ih' := ih (by simp)
      simp only [List.getLastD_cons] at ih' ⊢
      simp only [List.dropLast_cons₂, List.cons_append]
      rw [ih']

theorem initAndGrow_wf (ml : Int) : BufWF (initAndGrow ml).1 (initAndGrow ml).2 := by
  unfold initAndGrow
  by_cases h : 0 ≤ ml ∧ ml < (BUFFER_BLOCK_SIZE.headD 0 : Nat)
  · simp only [h, if_pos]
    exact ⟨by simp, by simp, by simp, by simp, fun _ => by simp; omega⟩
  · simp only [h, if_neg, not_false_iff]
    refine ⟨by simp, by simp, by simp, by simp, fun h0 => ?_⟩
    simp only [BUFFER_BLOCK_SIZE, List.headD] at h ⊢
    push_neg at h
    have := h h0
    omega

theorem initWithSize_wf (n : Nat) : BufWF (initWithSize n).1 (initWithSize n).2 := by
  refine ⟨by simp [initWithSize], by simp [initWithSize], by simp [initWithSize],
    by simp [initWithSize], fun h => ?_⟩
  simp [initWithSize] at h

theorem bufWrite_wf (b : BlocksBuf) (out : OutBuf) (bs : Bytes)
    (hw : BufWF b out) (hroom : out.pos + bs.length ≤ out.size) :
    BufWF (bufWrite b out bs).1 (bufWrite b out bs).2 := by
  obtain ⟨ne, ll, pl, al, mx⟩ := hw
  have hlen : (writeAt (b.blocks.getLastD []) out.pos bs).length
      = (b.blocks.getLastD []).length :=
    length_writeAt _ _ _ (by omega)
  refine ⟨by simp [bufWrite], ?_, by simpa [bufWrite] using hroom, ?_, ?_⟩
  · have hgl : (bufWrite b out bs).1.blocks.getLastD []
        = writeAt (b.blocks.getLastD []) out.pos bs := by
      simp [bufWrite]
    rw [hgl, hlen, ll]
    rfl
  · have h1 : (bufWrite b out bs).1.allocated = b.allocated := rfl
    have h2 : (bufWrite b out bs).1.blocks
        = b.blocks.dropLast ++ [writeAt (b.blocks.getLastD []) out.pos bs] := rfl
    rw [h1, h2, al, List.map_append, List.sum_append]
    conv_lhs => rw [← self_eq_dropLast_snoc b.blocks ne, List.map_append, List.sum_append]
    simp only [List.map_cons, List.map_nil, List.sum_cons, List.sum_nil]
    rw [hlen]
  · intro h
    simpa [bufWrite] using mx h

theorem growBuf_wf (b : BlocksBuf) (out : OutBuf)
    (hw : BufWF b out) (hfull : out.pos = out.size) (hnm : reachedMaxLength b = false) :
    BufWF (growBuf b out).1 (growBuf b out).2 := by
  obtain ⟨ne, ll, pl, al, mx⟩ := hw
  refine ⟨by simp [growBuf], by simp [growBuf], by simp [growBuf], ?_, ?_⟩
  · simp only [growBuf, List.map_append, List.sum_append, List.map_cons, List.map_nil,
      List.sum_cons, List.sum_nil, List.length_replicate]
    omega
  · intro h
    have hab : (b.allocated : Int) ≤ b.maxLength := mx h
    have hne : (b.allocated : Int) ≠ b.maxLength := by
      intro hc
      simp [reachedMaxLength, hc] at hnm
    have hlt : (b.allocated : Int) < b.maxLength := lt_of_le_of_ne hab hne
    simp only [growBuf, h, if_pos]
    by_cases hc : ((BUFFER_BLOCK_SIZE.getD b.blocks.length (BUFFER_BLOCK_SIZE.getLastD 0) : Nat) : Int)
        > b.maxLength - (b.allocated : Int)
    · simp only [hc, if_pos]
      push_cast
      omega
    · simp only [hc, if_neg, not_false_iff]
      push_cast
      push_neg at hc
      omega

theorem reach_wf (b : BlocksBuf) (out : OutBuf) (h : Reach b out) : BufWF b out := by
  induction h with
  | initGrow ml => exact initAndGrow_wf ml
  | initSize n => exact initWithSize_wf n
  | write b out bs _ hroom ih => exact bufWrite_wf b out bs ih hroom
  | grow b out _ hfull hnm ih => exact growBuf_wf b out ih hfull hnm

theorem finish_eq_writtenSoFar (b : BlocksBuf) (out : OutBuf) (hw : BufWF b out) :
    finish b out = writtenSoFar b out := by
  obtain ⟨blocks, alloc, ml⟩ := b
  obtain ⟨ne, ll, pl, al, mx⟩ := hw
  simp only at ne ll pl al mx
  unfold finish writtenSoFar
  simp only
  by_cases h1 : blocks.length = 1 ∧ out.pos = out.size
  · obtain ⟨hl, hp⟩ := h1
    match blocks, hl, ll with
    | [x], _, llx =>
      have hxl : x.length = out.size := by simpa using llx
      simp [hp, ← hxl]
  · by_cases h2 : blocks.length = 2 ∧ out.pos = 0
    · obtain ⟨hl, hp⟩ := h2
      match blocks, hl with
      | [x, y], _ => simp [hp]
    · have hc1 : (blocks.length == 1 && out.pos == out.size) = false := by
        rw [Bool.and_eq_false_iff]
        by_cases ha : blocks.length = 1
        · right
          simp only [beq_eq_false_iff_ne, ne_eq]
          intro hb
          exact h1 ⟨ha, hb⟩
        · left
          simp [ha]
      have hc2 : (blocks.length == 2 && out.pos == 0) = false := by
        rw [Bool.and_eq_false_iff]
        by_cases ha : blocks.length = 2
        · right
          simp only [beq_eq_false_iff_ne, ne_eq]
          intro hb
          exact h2 ⟨ha, hb⟩
        · left
          simp [ha]
      rw [hc1, hc2]
      simp

theorem writtenSoFar_length (b : BlocksBuf) (out : OutBuf) (hw : BufWF b out) :
    (writtenSoFar b out).length = b.allocated - (out.size - out.pos) := by
  obtain ⟨ne, ll, pl, al, mx⟩ := hw
  unfold writtenSoFar
  have halloc : b.allocated
      = (b.blocks.dropLast.map List.length).sum + (b.blocks.getLastD []).length := by
    rw [al]
    conv_lhs => rw [← self_eq_dropLast_snoc b.blocks ne]
    simp
  have hflat : (b.blocks.dropLast.flatten).length
      = (b.blocks.dropLast.map List.length).sum := by
    simp [List.length_flatten]
  simp only [List.length_append, hflat, List.length_take, ll]
  omega

theorem finish_length (b : BlocksBuf) (out : OutBuf) (hw : BufWF b out) :
    (finish b out).length = b.allocated - (out.size - out.pos) := by
  rw [finish_eq_writtenSoFar b out hw]
  exact writtenSoFar_length b out hw

/-- Claim C3: for every reachable buffer state, `finish` returns the in-order
concatenation of every fully-written block and the `out.pos`-byte written part
of the last block, of length `allocated - (out.size - out.pos)`; in the two
single-block fast cases it returns the first block whole. -/
theorem C3_finish_spec (b : BlocksBuf) (out : OutBuf) (h : Reach b out) :
    finish b out = b.blocks.dropLast.flatten ++ (b.blocks.getLastD []).take out.pos ∧
    (finish b out).length = b.allocated - (out.size - out.pos) ∧
    ((b.blocks.length = 1 ∧ out.pos = out.size) ∨ (b.blocks.length = 2 ∧ out.pos = 0) →
      finish b out = b.blocks.headD []) := by
  have hw := reach_wf b out h
  refine ⟨finish_eq_writtenSoFar b out hw, finish_length b out hw, ?_⟩
  intro hfast
  unfold finish
  rcases hfast with ⟨h1, h2⟩ | ⟨h1, h2⟩ <;> simp [h1, h2]

/-- Witness for C3 at a concrete reachable state: init with cap 5, then the
codec writes 2 bytes; finish returns exactly those 2 bytes. -/
theorem C3_finish_spec_witness :
    finish ⟨[[1, 2, 0, 0, 0]], 5, 5⟩ ⟨5, 2⟩ = [1, 2] := by
  have hr0 := Reach.initGrow 5
  have hr1 := Reach.write _ _ [1, 2] hr0 (by decide)
  have h := C3_finish_spec _ _ hr1
  have hval : bufWrite (initAndGrow 5).1 (initAndGrow 5).2 [1, 2]
      = (⟨[[1, 2, 0, 0, 0]], 5, 5⟩, ⟨5, 2⟩) := by decide
  rw [hval] at h
  rw [h.1]
  decide

/-! ## Python-level exceptions -/

/-- The exception kinds the embedded code can raise. -/
inductive PyErr where
  | valueErr
  | typeErr
  | zstdErr
  | eofErr
  | memErr
  deriving DecidableEq, Repr

/-! ## Abstract decompression codec

The zstd decompression context is an external collaborator.  `DCodec` bundles
a deterministic streaming-decompress step (`ZSTD_decompressStream`: consumes
input bytes, emits output bytes bounded by the available room, returns `0`
exactly at a fully-flushed frame boundary, or fails), a session reset
(`ZSTD_DCtx_reset`, documented as infallible), frame-size introspection
(`ZSTD_getFrameContentSize`, `none` models the UNKNOWN/ERROR sentinels), and
the two interface facts the wrapper relies on (cursors never move backwards
past the ends of the buffers). -/
structure DCodec (σ : Type) where
  step : σ → Bytes → Nat → Option (σ × Nat × Bytes × Nat)
  reset : σ → σ
  getFrameContentSize : Bytes → Option Nat
  consumed_le : ∀ s inp room r, step s inp room = some r → r.2.1 ≤ inp.length
  output_le : ∀ s inp room r, step s inp room = some r → r.2.2.1.length ≤ room

/-- `ZstdDecompressor` vs `EndlessZstdDecompressor` (`_Decompressor_type`). -/
inductive DType where
  | decompressor
  | endless
  deriving DecidableEq, Repr

/-- Models `ZSTD_inBuffer`: `size` is `src.length`. -/
structure InBuf where
  src : Bytes
  pos : Nat
  deriving DecidableEq, Repr

/-- The mutable state of a `_Decompressor` instance.  `decomp_calls` counts
invocations of the streaming-decompress step of the codec and `resets` counts
session resets (observers for the claims; the Python object does not store
them but they are derived ghost counters). -/
structure DState (σ : Type) where
  dctx : σ
  needs_input : Bool
  input_buffer : Option Bytes
  input_buffer_size : Nat
  in_begin : Nat
  in_end : Nat
  eof : Bool
  at_frame_edge : Bool
  dtype : DType
  decomp_calls : Nat
  resets : Nat
  deriving DecidableEq, Repr

/-- Fresh `ZstdDecompressor.__init__` state (lines 694-716, 935-940). -/
def freshDecompressor {σ : Type} (d0 : σ) : DState σ :=
  { dctx := d0, needs_input := true, input_buffer := none, input_buffer_size := 0,
    in_begin := 0, in_end := 0, eof := false, at_frame_edge := true,
    dtype := .decompressor, decomp_calls := 0, resets := 0 }

/-- Fresh `EndlessZstdDecompressor.__init__` state (lines 694-716, 967-971). -/
def freshEndless {σ : Type} (d0 : σ) : DState σ :=
  { dctx := d0, needs_input := true, input_buffer := none, input_buffer_size := 0,
    in_begin := 0, in_end := 0, eof := false, at_frame_edge := true,
    dtype := .endless, decomp_calls := 0, resets := 0 }

/-- The `except:` handler of `_stream_decompress` (lines 914-927): clear the
carry-over window, restore the fresh flag values, reset the codec session. -/
def resetOnError {σ : Type} (D : DCodec σ) (st : DState σ) : DState σ :=
  { st with
    in_begin := 0
    in_end := 0
    needs_input := true
    eof := if st.dtype = .decompressor then false else st.eof
    at_frame_edge := if st.dtype = .decompressor then st.at_frame_edge else true
    dctx := D.reset st.dctx
    resets := st.resets + 1 }

/-- Loop-carried state of the `while True` loop in `_decompress_impl`. -/
structure DLoopSt (σ : Type) where
  dctx : σ
  eof : Bool
  afe : Bool
  inBuf : InBuf
  buf : BlocksBuf
  out : OutBuf
  calls : Nat
  deriving DecidableEq, Repr

/-- The decompression loop of `_decompress_impl` (lines 743-777), with fuel.
`none` is fuel exhaustion (model artifact); `.error` a raised zstd error,
carrying the state as mutated so far. -/
def dLoop {σ : Type} (D : DCodec σ) (dtype : DType) :
    Nat → DLoopSt σ → Option (Except (DLoopSt σ) (DLoopSt σ))
  | 0, _ => none
  | fuel + 1, ls =>
    match D.step ls.dctx (ls.inBuf.src.drop ls.inBuf.pos) (ls.out.size - ls.out.pos) with
    | none => some (.error { ls with calls := ls.calls + 1 })
    | some (d', consumed, outBytes, ret) =>
      let ls1 : DLoopSt σ :=
        { ls with
          dctx := d'
          calls := ls.calls + 1
          inBuf := { ls.inBuf with pos := ls.inBuf.pos + consumed }
          buf := (bufWrite ls.buf ls.out outBytes).1
          out := (bufWrite ls.buf ls.out outBytes).2 }
      if dtype = .decompressor then
        if ret = 0 then some (.ok { ls1 with eof := true })
        else if ls1.out.pos = ls1.out.size then
          if reachedMaxLength ls1.buf then some (.ok ls1)
          else dLoop D dtype fuel
            { ls1 with buf := (growBuf ls1.buf ls1.out).1, out := (growBuf ls1.buf ls1.out).2 }
        else if ls1.inBuf.pos = ls1.inBuf.src.length then some (.ok ls1)
        else dLoop D dtype fuel ls1
      else
        let ls2 : DLoopSt σ := { ls1 with afe := ret = 0 }
        if ret = 0 ∧ ls2.inBuf.pos = ls2.inBuf.src.length then some (.ok ls2)
        else if ls2.out.pos = ls2.out.size then
          if reachedMaxLength ls2.buf then some (.ok ls2)
          else dLoop D dtype fuel
            { ls2 with buf := (growBuf ls2.buf ls2.out).1, out := (growBuf ls2.buf ls2.out).2 }
        else if ls2.inBuf.pos = ls2.inBuf.src.length then some (.ok ls2)
        else dLoop D dtype fuel ls2

/-- Copy the loop-carried fields back into the instance
(`self._eof` / `self._at_frame_edge` / the codec context). -/
def dWriteback {σ : Type} (st : DState σ) (ls : DLoopSt σ) : DState σ :=
  { st with
    dctx := ls.dctx
    eof := ls.eof
    at_frame_edge := ls.afe
    decomp_calls := ls.calls }

/-- `_Decompressor._decompress_impl` (lines 727-779). -/
def decompressImpl {σ : Type} (D : DCodec σ) (fuel : Nat) (st : DState σ) (inBuf : InBuf)
    (max_length : Int) (decompressed_size : Option Nat) :
    Option (Except (DState σ × InBuf) (DState σ × InBuf × Bytes)) :=
  if st.dtype = .endless ∧ st.at_frame_edge = true ∧ inBuf.pos = inBuf.src.length then
    some (.ok (st, inBuf, []))
  else
    let init : BlocksBuf × OutBuf :=
      match decompressed_size with
      | none => initAndGrow max_length
      | some n => initWithSize n
    match dLoop D st.dtype fuel
        ⟨st.dctx, st.eof, st.at_frame_edge, inBuf, init.1, init.2, st.decomp_calls⟩ with
    | none => none
    | some (.error ls) => some (.error (dWriteback st ls, ls.inBuf))
    | some (.ok ls) => some (.ok (dWriteback st ls, ls.inBuf, finish ls.buf ls.out))

/-- Steps 2 of `_stream_decompress` (lines 802-869): build the input view,
merging carried-over unconsumed bytes with `data`.  Returns the updated
instance state, the `use_input_buffer` flag, and the input view. -/
def prepInput {σ : Type} (st : DState σ) (data : Bytes) : DState σ × Bool × InBuf :=
  if st.in_begin = st.in_end then
    (st, false, ⟨data, 0⟩)
  else if data.length = 0 then
    (st, true, ⟨((st.input_buffer.getD []).drop st.in_begin).take (st.in_end - st.in_begin), 0⟩)
  else
    let used_now := st.in_end - st.in_begin
    let avail_now := st.input_buffer_size - st.in_end
    let avail_total := st.input_buffer_size - used_now
    let valid := ((st.input_buffer.getD []).drop st.in_begin).take used_now
    let st1 : DState σ :=
      if avail_total < data.length then
        { st with
          input_buffer := some (valid ++ List.replicate data.length 0)
          input_buffer_size := used_now + data.length
          in_begin := 0
          in_end := used_now }
      else if avail_now < data.length then
        { st with
          input_buffer := some (writeAt (st.input_buffer.getD []) 0 valid)
          in_begin := 0
          in_end := used_now }
      else st
    let st2 : DState σ :=
      { st1 with
        input_buffer := some (writeAt (st1.input_buffer.getD []) st1.in_end data)
        in_end := st1.in_end + data.length }
    (st2, true,
     ⟨((st2.input_buffer.getD []).drop st2.in_begin).take (used_now + data.length), 0⟩)

/-- `_Decompressor._stream_decompress` (lines 781-929), also returning the
final input view (ghost information used to state post-conditions).  `none`
is fuel exhaustion; `.error` carries the raised exception kind and the
post-handler state. -/
def streamDecompressCore {σ : Type} (D : DCodec σ) (fuel : Nat) (st : DState σ)
    (data : Bytes) (max_length : Int) :
    Option (Except (PyErr × DState σ) (DState σ × Bytes × InBuf)) :=
  if st.dtype = .decompressor ∧ st.eof = true then
    some (.error (.eofErr, resetOnError D st))
  else
    let decompressed_size : Option Nat :=
      if st.dtype = .endless ∧ st.at_frame_edge = true ∧ max_length < 0 ∧
          st.in_begin = st.in_end then
        D.getFrameContentSize data
      else none
    let prep := prepInput st data
    match decompressImpl D fuel prep.1 prep.2.2 max_length decompressed_size with
    | none => none
    | some (.error (stE, _)) => some (.error (.zstdErr, resetOnError D stE))
    | some (.ok (st2, inBuf2, ret)) =>
      if inBuf2.pos = inBuf2.src.length then
        let ni : Bool :=
          if st2.dtype = .decompressor then
            if (ret.length : Int) = max_length ∨ st2.eof = true then false else true
          else
            if (ret.length : Int) = max_length ∧ st2.at_frame_edge = false then false
            else true
        let st3 : DState σ := { st2 with needs_input := ni }
        let st4 : DState σ :=
          if prep.2.1 then { st3 with in_begin := 0, in_end := 0 } else st3
        some (.ok (st4, ret, inBuf2))
      else
        let data_size := inBuf2.src.length - inBuf2.pos
        let st3 : DState σ :=
          { st2 with
            needs_input := false
            at_frame_edge := if st2.dtype = .endless then false else st2.at_frame_edge }
        let st4 : DState σ :=
          if prep.2.1 = false then
            let realloc : Bool := st3.input_buffer.isNone || st3.input_buffer_size < data_size
            let base : Bytes :=
              if realloc then List.replicate data_size 0 else st3.input_buffer.getD []
            let nsize : Nat := if realloc then data_size else st3.input_buffer_size
            { st3 with
              input_buffer := some (writeAt base 0 (inBuf2.src.drop inBuf2.pos))
              input_buffer_size := nsize
              in_begin := 0
              in_end := data_size }
          else
            { st3 with in_begin := st3.in_begin + inBuf2.pos }
        some (.ok (st4, ret, inBuf2))

/-- Public `decompress(data, max_length)` of both decompressor classes. -/
def streamDecompress {σ : Type} (D : DCodec σ) (fuel : Nat) (st : DState σ)
    (data : Bytes) (max_length : Int) :
    Option (Except (PyErr × DState σ) (DState σ × Bytes)) :=
  match streamDecompressCore D fuel st data max_length with
  | none => none
  | some (.error e) => some (.error e)
  | some (.ok (st', ret, _)) => some (.ok (st', ret))

/-- Module-level `decompress(data)` (lines 988-1001): one-shot endless
decompression that must end at a frame edge. -/
def moduleDecompress {σ : Type} (D : DCodec σ) (fuel : Nat) (d0 : σ) (data : Bytes) :
    Option (Except PyErr Bytes) :=
  match streamDecompress D fuel (freshEndless d0) data (-1) with
  | none => none
  | some (.error (e, _)) => some (.error e)
  | some (.ok (st, ret)) =>
    if st.at_frame_edge = false then some (.error .zstdErr) else some (.ok ret)

/-! ## A concrete reference decompression codec

Modelled from the spec: the codec itself is an external collaborator ("the
underlying block-level compression algorithm itself is out of scope),
so a reference implementation is used for round-trip and witness theorems.  A
frame is one length header element followed by that many payload bytes; the
streaming step consumes at most up to the end of the current frame, buffers
decoded bytes, flushes as much as the output room allows, and returns `0`
exactly when a frame is fully decoded and fully flushed. -/

/-- Decompression context state: `expect` is the number of payload bytes still
missing from the current frame (`none` = at a frame boundary), `pending` the
decoded-but-unflushed bytes. -/
structure NState where
  expect : Option Nat
  pending : Bytes
  deriving DecidableEq, Repr

/-- Consume input up to the end of the current frame: returns the new
`expect`, the decoded bytes, and the number of input elements consumed. -/
def nConsume : Option Nat → Bytes → Option Nat × Bytes × Nat
  | none, [] => (none, [], 0)
  | none, n :: rest =>
    let t := min n rest.length
    if t = n then (none, rest.take n, 1 + n)
    else (some (n - t), rest.take t, 1 + t)
  | some k, inp =>
    let t := min k inp.length
    if t = k then (none, inp.take k, k)
    else (some (k - t), inp.take t, t)

/-- One `ZSTD_decompressStream` call of the reference codec.  A completed but
unflushed frame consumes no further input (zstd stops at the frame edge until
its output is flushed). -/
def nStep (s : NState) (inp : Bytes) (room : Nat) : Option (NState × Nat × Bytes × Nat) :=
  let c : Option Nat × Bytes × Nat :=
    if s.expect = none ∧ s.pending ≠ [] then (none, [], 0)
    else nConsume s.expect inp
  let pend := s.pending ++ c.2.1
  let e := min room pend.length
  let outB := pend.take e
  let pend' := pend.drop e
  let ret := if c.1 = none ∧ pend' = [] then 0 else 1
  some (⟨c.1, pend'⟩, c.2.2, outB, ret)

/-- Reference `ZSTD_getFrameContentSize`: the declared size is the header. -/
def nFrameContentSize : Bytes → Option Nat
  | [] => none
  | n :: _ => some n

theorem nConsume_consumed_le (e : Option Nat) (inp : Bytes) :
    (nConsume e inp).2.2 ≤ inp.length := by
  match e, inp with
  | none, [] => simp [nConsume]
  | none, n :: rest =>
    simp only [nConsume]
    by_cases h : min n rest.length = n
    · rw [if_pos h]
      simp only [List.length_cons]
      omega
    · rw [if_neg h]
      simp only [List.length_cons]
      omega
  | some k, inp =>
    simp only [nConsume]
    by_cases h : min k inp.length = k
    · rw [if_pos h]
      dsimp only
      omega
    · rw [if_neg h]
      dsimp only
      omega

/-- The reference decompression codec instance. -/
def nCodec : DCodec NState where
  step := nStep
  reset := fun _ => ⟨none, []⟩
  getFrameContentSize := nFrameContentSize
  consumed_le := by
    intro s inp room r h
    simp only [nStep, Option.some_inj] at h
    subst h
    by_cases hc : s.expect = none ∧ s.pending ≠ []
    · simp [hc]
    · simpa [hc] using nConsume_consumed_le s.expect inp
  output_le := by
    intro s inp room r h
    simp only [nStep, Option.some_inj] at h
    subst h
    simp only [List.length_take]
    omega

/-! ## Claim C10: frame-edge no-op for the endless decompressor -/

/-- Claim C10: on an endless decompressor at a frame edge with an empty
carry-over buffer, `decompress` of the empty byte string returns the empty
byte string, never invokes the decompress step of the codec, sets `needs_input`
true, and leaves every other field (including `at_frame_edge`) unchanged. -/
theorem C10_frame_edge_noop {σ : Type} (D : DCodec σ) (fuel : Nat) (st : DState σ)
    (ml : Int) (h1 : st.dtype = .endless) (h2 : st.at_frame_edge = true)
    (h3 : st.in_begin = st.in_end) :
    streamDecompressCore D fuel st [] ml
      = some (.ok ({ st with needs_input := true }, [], ⟨[], 0⟩)) := by
  unfold streamDecompressCore
  rw [if_neg (by simp [h1])]
  have hprep : prepInput st [] = (st, false, ⟨[], 0⟩) := by
    unfold prepInput
    rw [if_pos h3]
  rw [hprep]
  have himpl : ∀ ds, decompressImpl D fuel st ⟨[], 0⟩ ml ds
      = some (.ok (st, ⟨[], 0⟩, [])) := by
    intro ds
    unfold decompressImpl
    rw [if_pos ⟨h1, h2, by simp⟩]
  simp only [himpl, h1, h2]
  simp

/-- Witness for C10 at a fresh endless decompressor over the reference codec. -/
theorem C10_frame_edge_noop_witness :
    streamDecompressCore nCodec 1 (freshEndless (⟨none, []⟩ : NState)) [] (-1)
      = some (.ok (freshEndless (⟨none, []⟩ : NState), [], ⟨[], 0⟩)) := by
  have h := C10_frame_edge_noop nCodec 1 (freshEndless (⟨none, []⟩ : NState)) (-1)
    rfl rfl rfl
  simpa using h

/-! ## Claim C8: the error handler restores a reusable fresh-like state -/

theorem decompressImpl_error_inv {σ : Type} (D : DCodec σ) (fuel : Nat) (st : DState σ)
    (ib : InBuf) (ml : Int) (ds : Option Nat) (stE : DState σ) (ib2 : InBuf)
    (h : decompressImpl D fuel st ib ml ds = some (.error (stE, ib2))) :
    stE.dtype = st.dtype ∧ stE.resets = st.resets := by
  unfold decompressImpl at h
  split at h
  · simp at h
  · split at h
    all_goals
      dsimp only at h
      split at h
      · simp at h
      · rename_i ls heq
        simp only [Option.some_inj, Except.error.injEq, Prod.mk.injEq] at h
        obtain ⟨h1, _⟩ := h
        subst h1
        exact ⟨rfl, rfl⟩
      · simp at h

theorem prepInput_inv {σ : Type} (st : DState σ) (data : Bytes) :
    (prepInput st data).1.dtype = st.dtype ∧ (prepInput st data).1.resets = st.resets := by
  unfold prepInput
  split
  · exact ⟨rfl, rfl⟩
  · split
    · exact ⟨rfl, rfl⟩
    · constructor
      all_goals
        dsimp only
        split
        · rfl
        · split <;> rfl

theorem core_error_shape {σ : Type} (D : DCodec σ) (fuel : Nat) (st : DState σ)
    (data : Bytes) (ml : Int) (e : PyErr) (st' : DState σ)
    (h : streamDecompressCore D fuel st data ml = some (.error (e, st'))) :
    ∃ s : DState σ, st' = resetOnError D s ∧ s.dtype = st.dtype ∧ s.resets = st.resets := by
  unfold streamDecompressCore at h
  split at h
  · refine ⟨st, ?_, rfl, rfl⟩
    simp only [Option.some_inj, Except.error.injEq, Prod.mk.injEq] at h
    exact h.2.symm
  · dsimp only at h
    split at h
    · simp at h
    · rename_i stE ib2 heq
      simp only [Option.some_inj, Except.error.injEq, Prod.mk.injEq] at h
      obtain ⟨himpl1, himpl2⟩ := decompressImpl_error_inv D fuel _ _ ml _ stE ib2 heq
      obtain ⟨hp1, hp2⟩ := prepInput_inv st data
      exact ⟨stE, h.2.symm, by rw [himpl1, hp1], by rw [himpl2, hp2]⟩
    · split at h
      · simp at h
      · simp at h

/-- Claim C8: if a `decompress` call raises, the propagated state has an empty
carry-over window, the fresh-instance flag values, an incremented session
reset count, and a freshly reset codec session. -/
theorem C8_error_resets_state {σ : Type} (D : DCodec σ) (fuel : Nat) (st : DState σ)
    (data : Bytes) (ml : Int) (e : PyErr) (st' : DState σ)
    (h : streamDecompress D fuel st data ml = some (.error (e, st'))) :
    st'.in_begin = 0 ∧ st'.in_end = 0 ∧ st'.needs_input = true ∧
    (st.dtype = .decompressor → st'.eof = false) ∧
    (st.dtype = .endless → st'.at_frame_edge = true) ∧
    st'.resets = st.resets + 1 ∧ ∃ s, st'.dctx = D.reset s := by
  unfold streamDecompress at h
  have hcore : streamDecompressCore D fuel st data ml = some (.error (e, st')) := by
    split at h
    · simp at h
    · rename_i ep heq
      simp only [Option.some_inj] at h
      have hep : ep = (e, st') := by injection h
      rw [heq, hep]
    · rename_i p q r heq
      simp at h
  obtain ⟨s, hs, hdt, hrs⟩ := core_error_shape D fuel st data ml e st' hcore
  subst hs
  refine ⟨rfl, rfl, rfl, ?_, ?_, by simp [resetOnError, hrs], ⟨s.dctx, rfl⟩⟩
  · intro hd
    simp only [resetOnError]
    rw [hdt, hd]
    simp
  · intro hd
    simp only [resetOnError]
    rw [hdt, hd]
    simp

/-- Witness for C8: a single-frame decompressor already at `eof` raises
`EOFError`; the conclusions of the theorem hold at the propagated state. -/
theorem C8_error_resets_state_witness :
    (⟨⟨none, []⟩, true, none, 0, 0, 0, false, true, .decompressor, 0, 1⟩ :
        DState NState).in_begin = 0 ∧
    (⟨⟨none, []⟩, true, none, 0, 0, 0, false, true, .decompressor, 0, 1⟩ :
        DState NState).in_end = 0 ∧
    (⟨⟨none, []⟩, true, none, 0, 0, 0, false, true, .decompressor, 0, 1⟩ :
        DState NState).needs_input = true ∧
    (({ freshDecompressor (⟨none, []⟩ : NState) with eof := true }).dtype = .decompressor →
      (⟨⟨none, []⟩, true, none, 0, 0, 0, false, true, .decompressor, 0, 1⟩ :
        DState NState).eof = false) ∧
    (({ freshDecompressor (⟨none, []⟩ : NState) with eof := true }).dtype = .endless →
      (⟨⟨none, []⟩, true, none, 0, 0, 0, false, true, .decompressor, 0, 1⟩ :
        DState NState).at_frame_edge = true) ∧
    (⟨⟨none, []⟩, true, none, 0, 0, 0, false, true, .decompressor, 0, 1⟩ :
        DState NState).resets
      = ({ freshDecompressor (⟨none, []⟩ : NState) with eof := true }).resets + 1 ∧
    ∃ s, (⟨⟨none, []⟩, true, none, 0, 0, 0, false, true, .decompressor, 0, 1⟩ :
        DState NState).dctx = nCodec.reset s :=
  C8_error_resets_state nCodec 1 { freshDecompressor (⟨none, []⟩ : NState) with eof := true }
    [] (-1) .eofErr _ (by rfl)

/-! ## Claim C2: `decompress(data, max_length=N)` returns at most `N` bytes -/

theorem bufWrite_maxLength (b : BlocksBuf) (out : OutBuf) (bs : Bytes) :
    (bufWrite b out bs).1.maxLength = b.maxLength := rfl

theorem growBuf_maxLength (b : BlocksBuf) (out : OutBuf) :
    (growBuf b out).1.maxLength = b.maxLength := rfl

/-- The `_decompress_impl` loop keeps the buffer well-formed and never changes
its length cap. -/
theorem dLoop_wf {σ : Type} (D : DCodec σ) (dtype : DType) :
    ∀ (fuel : Nat) (ls ls' : DLoopSt σ), BufWF ls.buf ls.out →
      dLoop D dtype fuel ls = some (.ok ls') →
      BufWF ls'.buf ls'.out ∧ ls'.buf.maxLength = ls.buf.maxLength := by
  intro fuel
  induction fuel with
  | zero =>
    intro ls ls' hwf h
    simp [dLoop] at h
  | succ fuel ih =>
    intro ls ls' hwf h
    rw [dLoop] at h
    cases hstep : D.step ls.dctx (ls.inBuf.src.drop ls.inBuf.pos)
        (ls.out.size - ls.out.pos) with
    | none =>
      rw [hstep] at h
      simp at h
    | some r =>
      obtain ⟨d', consumed, outBytes, ret⟩ := r
      rw [hstep] at h
      have hob : outBytes.length ≤ ls.out.size - ls.out.pos :=
        D.output_le _ _ _ _ hstep
      have hroom : ls.out.pos + outBytes.length ≤ ls.out.size := by
        have := hwf.pos_le
        omega
      have hwf1 : BufWF (bufWrite ls.buf ls.out outBytes).1
          (bufWrite ls.buf ls.out outBytes).2 := bufWrite_wf _ _ _ hwf hroom
      dsimp only at h
      split at h
      · -- single-frame decompressor branch
        split at h
        · -- ret = 0: break with eof
          simp only [Option.some_inj, Except.ok.injEq] at h
          subst h
          exact ⟨hwf1, rfl⟩
        · split at h
          · split at h
            · -- reached max length: break
              simp only [Option.some_inj, Except.ok.injEq] at h
              subst h
              exact ⟨hwf1, rfl⟩
            · -- grow and loop
              rename_i hfull hnm
              have hwfg : BufWF (growBuf (bufWrite ls.buf ls.out outBytes).1
                  (bufWrite ls.buf ls.out outBytes).2).1
                  (growBuf (bufWrite ls.buf ls.out outBytes).1
                  (bufWrite ls.buf ls.out outBytes).2).2 :=
                growBuf_wf _ _ hwf1 hfull (by simpa using hnm)
              obtain ⟨hw, hm⟩ := ih _ _ hwfg h
              exact ⟨hw, by simpa using hm⟩
          · split at h
            · -- input exhausted: break
              simp only [Option.some_inj, Except.ok.injEq] at h
              subst h
              exact ⟨hwf1, rfl⟩
            · -- loop again
              obtain ⟨hw, hm⟩ := ih _ _ hwf1 h
              exact ⟨hw, by simpa using hm⟩
      · -- endless branch
        split at h
        · -- frame edge with input exhausted: break
          simp only [Option.some_inj, Except.ok.injEq] at h
          subst h
          exact ⟨hwf1, rfl⟩
        · split at h
          · split at h
            · simp only [Option.some_inj, Except.ok.injEq] at h
              subst h
              exact ⟨hwf1, rfl⟩
            · rename_i hfull hnm
              have hwfg : BufWF (growBuf (bufWrite ls.buf ls.out outBytes).1
                  (bufWrite ls.buf ls.out outBytes).2).1
                  (growBuf (bufWrite ls.buf ls.out outBytes).1
                  (bufWrite ls.buf ls.out outBytes).2).2 :=
                growBuf_wf _ _ hwf1 hfull (by simpa using hnm)
              obtain ⟨hw, hm⟩ := ih _ _ hwfg h
              exact ⟨hw, by simpa using hm⟩
          · split at h
            · simp only [Option.some_inj, Except.ok.injEq] at h
              subst h
              exact ⟨hwf1, rfl⟩
            · obtain ⟨hw, hm⟩ := ih _ _ hwf1 h
              exact ⟨hw, by simpa using hm⟩

/-- A successful `_decompress_impl` call with a non-negative `max_length` and
unknown content size returns at most `max_length` bytes. -/
theorem decompressImpl_ok_len {σ : Type} (D : DCodec σ) (fuel : Nat) (st : DState σ)
    (ib : InBuf) (N : Int) (hN : 0 ≤ N) (st' : DState σ) (ib' : InBuf) (ret : Bytes)
    (h : decompressImpl D fuel st ib N none = some (.ok (st', ib', ret))) :
    (ret.length : Int) ≤ N := by
  unfold decompressImpl at h
  split at h
  · simp only [Option.some_inj, Except.ok.injEq, Prod.mk.injEq] at h
    rw [← h.2.2]
    simpa using hN
  · dsimp only at h
    split at h
    · simp at h
    · simp at h
    · rename_i ls heq
      simp only [Option.some_inj, Except.ok.injEq, Prod.mk.injEq] at h
      have hret : ret = finish ls.buf ls.out := h.2.2.symm
      obtain ⟨hwf', hml⟩ := dLoop_wf D st.dtype fuel _ ls (initAndGrow_wf N) heq
      have hmlN : ls.buf.maxLength = N := hml
      have hlen := finish_length ls.buf ls.out hwf'
      have hAl : (ls.buf.allocated : Int) ≤ N := by
        have := hwf'.maxlen (by rw [hmlN]; exact hN)
        rwa [hmlN] at this
      rw [hret, hlen]
      push_cast
      omega

/-- The returned bytes of a successful `decompress` call come from one successful
`_decompress_impl` call whose `decompressed_size` argument is the UNKNOWN
sentinel whenever `max_length` is non-negative. -/
theorem core_ok_ret {σ : Type} (D : DCodec σ) (fuel : Nat) (st : DState σ)
    (data : Bytes) (ml : Int) (st' : DState σ) (ret : Bytes) (ib' : InBuf)
    (h : streamDecompressCore D fuel st data ml = some (.ok (st', ret, ib'))) :
    ∃ (st0 : DState σ) (ib0 : InBuf) (ds : Option Nat) (st2 : DState σ) (ib2 : InBuf),
      decompressImpl D fuel st0 ib0 ml ds = some (.ok (st2, ib2, ret)) ∧
      (0 ≤ ml → ds = none) := by
  unfold streamDecompressCore at h
  split at h
  · simp at h
  · dsimp only at h
    split at h
    · simp at h
    · simp at h
    · rename_i st2 ib2 r heq
      refine ⟨(prepInput st data).1, (prepInput st data).2.2,
        (if st.dtype = DType.endless ∧ st.at_frame_edge = true ∧ ml < 0 ∧
            st.in_begin = st.in_end then D.getFrameContentSize data else none),
        st2, ib2, ?_, ?_⟩
      · have hr : r = ret := by
          split at h
          · simp only [Option.some_inj, Except.ok.injEq, Prod.mk.injEq] at h
            exact h.2.1
          · simp only [Option.some_inj, Except.ok.injEq, Prod.mk.injEq] at h
            exact h.2.1
        rw [← hr]
        exact heq
      · intro hml
        rw [if_neg]
        rintro ⟨-, -, hlt, -⟩
        omega

/-- Claim C2: for every decompressor, input, and non-negative `N`,
`decompress(data, max_length=N)` returns a byte string of length at most `N`. -/
theorem C2_bounded_output {σ : Type} (D : DCodec σ) (fuel : Nat) (st : DState σ)
    (data : Bytes) (N : Int) (hN : 0 ≤ N) (st' : DState σ) (ret : Bytes)
    (h : streamDecompress D fuel st data N = some (.ok (st', ret))) :
    (ret.length : Int) ≤ N := by
  unfold streamDecompress at h
  split at h
  · simp at h
  · simp at h
  · rename_i st2 ret2 ib2 heq
    simp only [Option.some_inj, Except.ok.injEq, Prod.mk.injEq] at h
    obtain ⟨st0, ib0, ds, st3, ib3, himpl, hds⟩ :=
      core_ok_ret D fuel st data N st2 ret2 ib2 heq
    rw [hds hN] at himpl
    have := decompressImpl_ok_len D fuel st0 ib0 N hN st3 ib3 ret2 himpl
    rw [← h.2]
    exact this

/-- Witness for C2: the reference codec on a 2-byte frame with `max_length` 1
returns a single byte. -/
theorem C2_bounded_output_witness :
    (([7] : Bytes).length : Int) ≤ 1 :=
  C2_bounded_output nCodec 4 (freshEndless (⟨none, []⟩ : NState)) [2, 7, 8] 1 (by decide)
    ⟨⟨none, [8]⟩, false, none, 0, 0, 0, false, false, .endless, 1, 0⟩ [7] (by rfl)

/-! ## Claim C4: `ZstdDict` construction validity -/

/-- Modelled from the spec: the dictionary-ID extraction of the codec
(`ZDICT_getDictID`, an external collaborator): a formatted dictionary starts
with the magic bytes `0x37 0xA4 0x30 0xEC` and stores the 32-bit
little-endian identifier at offset 4; any other content (including buffers
shorter than 8 bytes) yields 0. -/
def ZDICT_getDictID (content : Bytes) : Nat :=
  if content.length < 8 then 0
  else if content.take 4 = [0x37, 0xA4, 0x30, 0xEC] then
    content.getD 4 0 + 256 * content.getD 5 0 + 65536 * content.getD 6 0
      + 16777216 * content.getD 7 0
  else 0

/-- The observable state of a constructed `ZstdDict`. -/
structure ZstdDictObj where
  dict_content : Bytes
  dict_id : Nat
  deriving DecidableEq, Repr

/-- `ZstdDict.__init__` (lines 216-241): require at least 8 bytes, extract
the dictionary id, and reject id 0 unless `is_raw`. -/
def ZstdDict_init (dict_content : Bytes) (is_raw : Bool) : Except PyErr ZstdDictObj :=
  if dict_content.length < 8 then .error .valueErr
  else
    let dict_id := ZDICT_getDictID dict_content
    if is_raw = false ∧ dict_id = 0 then .error .valueErr
    else .ok ⟨dict_content, dict_id⟩

/-- Claim C4: construction fails exactly when the content is shorter than 8
bytes or (non-raw mode) the extracted identifier is 0; on success `dict_id`
is the extracted identifier, and a zero id implies raw mode. -/
theorem C4_dict_validation (content : Bytes) (is_raw : Bool) :
    ((∃ e, ZstdDict_init content is_raw = .error e) ↔
      (content.length < 8 ∨ (is_raw = false ∧ ZDICT_getDictID content = 0))) ∧
    (∀ d, ZstdDict_init content is_raw = .ok d →
      d.dict_id = ZDICT_getDictID content ∧ (d.dict_id = 0 → is_raw = true)) := by
  unfold ZstdDict_init
  by_cases h8 : content.length < 8
  · rw [if_pos h8]
    refine ⟨⟨fun _ => Or.inl h8, fun _ => ⟨.valueErr, rfl⟩⟩, ?_⟩
    intro d hd
    simp at hd
  · rw [if_neg h8]
    dsimp only
    by_cases h0 : is_raw = false ∧ ZDICT_getDictID content = 0
    · rw [if_pos h0]
      refine ⟨⟨fun _ => Or.inr h0, fun _ => ⟨.valueErr, rfl⟩⟩, ?_⟩
      intro d hd
      simp at hd
    · rw [if_neg h0]
      constructor
      · constructor
        · rintro ⟨e, he⟩
          simp at he
        · rintro (hc | hc)
          · exact absurd hc h8
          · exact absurd hc h0
      · intro d hd
        simp only [Except.ok.injEq] at hd
        subst hd
        refine ⟨rfl, ?_⟩
        intro hz
        by_contra hr
        have : is_raw = false := by
          cases is_raw
          · rfl
          · simp at hr
        exact h0 ⟨this, hz⟩

/-- Witness for C4: a minimal valid formatted dictionary (magic plus id 1). -/
theorem C4_dict_validation_witness :
    (⟨[0x37, 0xA4, 0x30, 0xEC, 1, 0, 0, 0], 1⟩ : ZstdDictObj).dict_id
        = ZDICT_getDictID [0x37, 0xA4, 0x30, 0xEC, 1, 0, 0, 0] ∧
      ((⟨[0x37, 0xA4, 0x30, 0xEC, 1, 0, 0, 0], 1⟩ : ZstdDictObj).dict_id = 0 →
        false = true) :=
  (C4_dict_validation [0x37, 0xA4, 0x30, 0xEC, 1, 0, 0, 0] false).2
    ⟨[0x37, 0xA4, 0x30, 0xEC, 1, 0, 0, 0], 1⟩ (by rfl)

/-! ## Claim C5: nbWorkers translation in `_set_c_parameters` -/

/-- Parameter keys (the relevant `ZSTD_cParameter` enum values). -/
def ZSTD_c_compressionLevel : Int := 100
def ZSTD_c_nbWorkers : Int := 400
def ZSTD_c_jobSize : Int := 401
def ZSTD_c_overlapLog : Int := 402

/-- `_check_int32_value` (lines 405-410). -/
def int32_ok (v : Int) : Bool :=
  decide (-2147483648 ≤ v ∧ v ≤ 2147483647)

/-- `clamp_compression_level` (lines 413-418): zstd before 1.4.7 does not
clamp the lower bound itself. -/
def clamp_compression_level (zstdVer minLevel lvl : Int) : Int :=
  if zstdVer < 10407 then (if lvl < minLevel then minLevel else lvl) else lvl

/-- `level_or_option`: a bare compression level or a parameter mapping
(entries in insertion order). -/
inductive LevelOrOption where
  | level (n : Int)
  | option (entries : List (Int × Int))
  deriving DecidableEq, Repr

/-- The mapping-mode loop of `_set_c_parameters` (lines 433-464).  The codec
context is modelled as the list of `(key, value)` pairs passed to
`ZSTD_CCtx_setParameter`, with `paramOk` the acceptance oracle of the codec. -/
def applyOneCParam (supportMT : Bool) (zstdVer minLevel level : Int) (useMT : Bool)
    (key value : Int) : Int × Int × Bool :=
  let p1 : Int × Int × Bool :=
    if key = ZSTD_c_compressionLevel then
      let v := clamp_compression_level zstdVer minLevel value
      (v, v, useMT)
    else if key = ZSTD_c_nbWorkers then
      if value > 1 then (level, value, true)
      else if value = 1 then (level, 0, useMT)
      else (level, value, useMT)
    else (level, value, useMT)
  if supportMT = false ∧
      (key = ZSTD_c_nbWorkers ∨ key = ZSTD_c_jobSize ∨ key = ZSTD_c_overlapLog) ∧
      p1.2.1 > 0 then
    (p1.1, 0, if key = ZSTD_c_nbWorkers then false else p1.2.2)
  else p1

/-- The mapping-mode loop of `_set_c_parameters` (lines 433-464).  The codec
context is modelled as the list of `(key, value)` pairs passed to
`ZSTD_CCtx_setParameter`, with `paramOk` the acceptance oracle of the codec;
`applyOneCParam` is the per-entry translation (level tracking, the nbWorkers
special cases, and the no-multithreading downgrade). -/
def setCLoop (supportMT : Bool) (zstdVer minLevel : Int) (paramOk : Int → Int → Bool) :
    List (Int × Int) → Int → Bool → List (Int × Int) →
    Except PyErr (List (Int × Int) × Int × Bool)
  | cctx, level, useMT, [] => .ok (cctx, level, useMT)
  | cctx, level, useMT, (key, value) :: rest =>
    if int32_ok key = false then .error .valueErr
    else if int32_ok value = false then .error .valueErr
    else
      let r := applyOneCParam supportMT zstdVer minLevel level useMT key value
      if paramOk key r.2.1 = false then .error .zstdErr
      else setCLoop supportMT zstdVer minLevel paramOk (cctx ++ [(key, r.2.1)]) r.1 r.2.2 rest

/-- `_set_c_parameters` (lines 412-466). -/
def setCParameters (supportMT : Bool) (zstdVer minLevel : Int)
    (paramOk : Int → Int → Bool) (cctx : List (Int × Int)) :
    LevelOrOption → Except PyErr (List (Int × Int) × Int × Bool)
  | .level n =>
    if int32_ok n = false then .error .valueErr
    else
      let lvl := clamp_compression_level zstdVer minLevel n
      if paramOk ZSTD_c_compressionLevel lvl = false then .error .zstdErr
      else .ok (cctx ++ [(ZSTD_c_compressionLevel, lvl)], lvl, false)
  | .option entries => setCLoop supportMT zstdVer minLevel paramOk cctx 0 false entries

theorem applyOne_nbWorkers_one (zv ml lvl : Int) (mt : Bool) :
    applyOneCParam true zv ml lvl mt ZSTD_c_nbWorkers 1 = (lvl, 0, mt) := by
  unfold applyOneCParam
  rw [if_neg (by simp)]
  rw [if_neg (by decide), if_pos rfl, if_neg (by decide), if_pos rfl]

theorem applyOne_mtflag (zv ml lvl : Int) (mt : Bool) (k v : Int) :
    ((applyOneCParam true zv ml lvl mt k v).2.2 = true) ↔
      (mt = true ∨ (k = ZSTD_c_nbWorkers ∧ 1 < v)) := by
  unfold applyOneCParam
  rw [if_neg (by simp)]
  dsimp only
  by_cases hk1 : k = ZSTD_c_compressionLevel
  · rw [if_pos hk1]
    subst hk1
    simp only [ZSTD_c_compressionLevel, ZSTD_c_nbWorkers]
    constructor
    · intro hmt
      exact Or.inl hmt
    · rintro (hmt | ⟨hc, -⟩)
      · exact hmt
      · exact absurd hc (by decide)
  · rw [if_neg hk1]
    by_cases hk2 : k = ZSTD_c_nbWorkers
    · rw [if_pos hk2]
      by_cases hv1 : v > 1
      · rw [if_pos hv1]
        simp only [true_iff]
        exact Or.inr ⟨hk2, hv1⟩
      · rw [if_neg hv1]
        have hnv : ¬(k = ZSTD_c_nbWorkers ∧ 1 < v) := by
          rintro ⟨-, hlt⟩
          omega
        by_cases hv2 : v = 1
        · rw [if_pos hv2]
          simp [hnv]
        · rw [if_neg hv2]
          simp [hnv]
    · rw [if_neg hk2]
      have hnv : ¬(k = ZSTD_c_nbWorkers ∧ 1 < v) := by
        rintro ⟨hc, -⟩
        exact hk2 hc
      simp [hnv]

theorem setCLoop_ok_shape (zstdVer minLevel : Int) (paramOk : Int → Int → Bool) :
    ∀ (entries cctx : List (Int × Int)) (level : Int) (useMT : Bool)
      (cctx' : List (Int × Int)) (level' : Int) (useMT' : Bool),
      setCLoop true zstdVer minLevel paramOk cctx level useMT entries
        = .ok (cctx', level', useMT') →
      ∃ app : List (Int × Int), cctx' = cctx ++ app ∧
        (∀ i : Nat, entries[i]? = some (ZSTD_c_nbWorkers, 1) →
          app[i]? = some (ZSTD_c_nbWorkers, 0)) ∧
        (useMT' = true ↔ (useMT = true ∨ ∃ p ∈ entries, p.1 = ZSTD_c_nbWorkers ∧ 1 < p.2)) := by
  intro entries
  induction entries with
  | nil =>
    intro cctx level useMT cctx' level' useMT' h
    rw [setCLoop] at h
    simp only [Except.ok.injEq, Prod.mk.injEq] at h
    obtain ⟨h1, h2, h3⟩ := h
    refine ⟨[], by simp [← h1], ?_, ?_⟩
    · intro i hi
      simp at hi
    · subst h3
      simp
  | cons e rest ih =>
    obtain ⟨k, v⟩ := e
    intro cctx level useMT cctx' level' useMT' h
    rw [setCLoop] at h
    split at h
    · simp at h
    · split at h
      · simp at h
      · dsimp only at h
        split at h
        · simp at h
        · obtain ⟨app', happ, hidx, hmt⟩ := ih _ _ _ _ _ _ h
          refine ⟨(k, (applyOneCParam true zstdVer minLevel level useMT k v).2.1) :: app',
            by simp [happ], ?_, ?_⟩
          · intro i hi
            match i with
            | 0 =>
              simp only [List.getElem?_cons_zero, Option.some_inj, Prod.mk.injEq] at hi ⊢
              obtain ⟨hk, hv⟩ := hi
              subst hk
              subst hv
              rw [applyOne_nbWorkers_one]
              exact ⟨rfl, rfl⟩
            | i + 1 =>
              simp only [List.getElem?_cons_succ] at hi ⊢
              exact hidx i hi
          · rw [hmt, applyOne_mtflag]
            constructor
            · rintro ((hu | hh) | ⟨p, hp, hpw⟩)
              · exact Or.inl hu
              · exact Or.inr ⟨(k, v), List.mem_cons_self _ _, hh⟩
              · exact Or.inr ⟨p, List.mem_cons_of_mem _ hp, hpw⟩
            · rintro (hu | ⟨p, hp, hpw⟩)
              · exact Or.inl (Or.inl hu)
              · rcases List.mem_cons.mp hp with hph | hpt
                · rw [hph] at hpw
                  exact Or.inl (Or.inr ⟨hpw.1, hpw.2⟩)
                · exact Or.inr ⟨p, hpt, hpw⟩


theorem C5_nbWorkers_translation (zstdVer minLevel : Int) (paramOk : Int → Int → Bool)
    (cctx entries cctx' : List (Int × Int)) (level : Int) (useMT : Bool)
    (h : setCParameters true zstdVer minLevel paramOk cctx (.option entries)
        = .ok (cctx', level, useMT)) :
    (∀ i : Nat, entries[i]? = some (ZSTD_c_nbWorkers, 1) →
      cctx'[cctx.length + i]? = some (ZSTD_c_nbWorkers, 0)) ∧
    (useMT = true ↔ ∃ p ∈ entries, p.1 = ZSTD_c_nbWorkers ∧ 1 < p.2) := by
  have hloop : setCLoop true zstdVer minLevel paramOk cctx 0 false entries
      = .ok (cctx', level, useMT) := h
  obtain ⟨app, happ, hidx, hmt⟩ :=
    setCLoop_ok_shape zstdVer minLevel paramOk entries cctx 0 false cctx' level useMT hloop
  constructor
  · intro i hi
    rw [happ, List.getElem?_append_right (by omega)]
    have : cctx.length + i - cctx.length = i := by omega
    rw [this]
    exact hidx i hi
  · rw [hmt]
    simp

/-- Witness for C5: entries `[(nbWorkers, 1), (jobSize, 5)]` on an empty
context apply `nbWorkers` as 0. -/
theorem C5_nbWorkers_translation_witness :
    ([((400 : Int), (0 : Int)), (401, 5)] : List (Int × Int))[0]? = some (400, 0) :=
  (C5_nbWorkers_translation 10500 (-131072) (fun _ _ => true) [] [(400, 1), (401, 5)]
    [(400, 0), (401, 5)] 0 false (by rfl)).1 0 (by rfl)

/-! ## Abstract compression codec and `_Compressor`

`CCodec` models the external compression context API: the streaming step
(`ZSTD_compressStream2` with an end directive; returns `0` when the
directive is fully satisfied), session reset, the worst-case output bound
(`ZSTD_compressBound`) and pledged-size registration. -/
structure CCodec (σ : Type) where
  step : σ → Bytes → Nat → Nat → Option (σ × Nat × Bytes × Nat)
  reset : σ → σ
  compressBound : Nat → Nat
  setPledged : σ → Nat → Option σ
  consumed_le : ∀ s inp room dir r, step s inp room dir = some r → r.2.1 ≤ inp.length
  output_le : ∀ s inp room dir r, step s inp room dir = some r → r.2.2.1.length ≤ room

/-- Directive values: `ZSTD_e_continue`, `ZSTD_e_flush`, `ZSTD_e_end`. -/
def CONTINUE : Nat := 0
def FLUSH_BLOCK : Nat := 1
def FLUSH_FRAME : Nat := 2

/-- Loop-carried state of the `_compress_impl` loops. -/
structure CLoopSt (σ : Type) where
  cctx : σ
  inBuf : InBuf
  buf : BlocksBuf
  out : OutBuf
  calls : Nat
  deriving DecidableEq, Repr

/-- The `while True` loop of `_compress_impl` (lines 546-558). -/
def cLoop {σ : Type} (C : CCodec σ) (directive : Nat) :
    Nat → CLoopSt σ → Option (Except (CLoopSt σ) (CLoopSt σ × Bytes))
  | 0, _ => none
  | fuel + 1, ls =>
    match C.step ls.cctx (ls.inBuf.src.drop ls.inBuf.pos) (ls.out.size - ls.out.pos)
        directive with
    | none => some (.error { ls with calls := ls.calls + 1 })
    | some (c', consumed, outBytes, ret) =>
      let ls1 : CLoopSt σ :=
        { ls with
          cctx := c'
          calls := ls.calls + 1
          inBuf := { ls.inBuf with pos := ls.inBuf.pos + consumed }
          buf := (bufWrite ls.buf ls.out outBytes).1
          out := (bufWrite ls.buf ls.out outBytes).2 }
      if ret = 0 then some (.ok (ls1, finish ls1.buf ls1.out))
      else if ls1.out.pos = ls1.out.size then
        cLoop C directive fuel
          { ls1 with buf := (growBuf ls1.buf ls1.out).1, out := (growBuf ls1.buf ls1.out).2 }
      else cLoop C directive fuel ls1

/-- The inner `while True` loop of `_compress_mt_continue_impl`
(lines 575-582): repeat CONTINUE steps until the output block fills, the
input is consumed, or an error occurs (the Bool result flags the error). -/
def mtInner {σ : Type} (C : CCodec σ) : Nat → CLoopSt σ → Option (CLoopSt σ × Bool)
  | 0, _ => none
  | fuel + 1, ls =>
    match C.step ls.cctx (ls.inBuf.src.drop ls.inBuf.pos) (ls.out.size - ls.out.pos)
        CONTINUE with
    | none => some ({ ls with calls := ls.calls + 1 }, true)
    | some (c', consumed, outBytes, ret) =>
      let ls1 : CLoopSt σ :=
        { ls with
          cctx := c'
          calls := ls.calls + 1
          inBuf := { ls.inBuf with pos := ls.inBuf.pos + consumed }
          buf := (bufWrite ls.buf ls.out outBytes).1
          out := (bufWrite ls.buf ls.out outBytes).2 }
      if ls1.out.pos = ls1.out.size ∨ ls1.inBuf.pos = ls1.inBuf.src.length then
        some (ls1, false)
      else mtInner C fuel ls1

/-- The outer loop of `_compress_mt_continue_impl` (lines 574-595). -/
def mtLoop {σ : Type} (C : CCodec σ) :
    Nat → CLoopSt σ → Option (Except (CLoopSt σ) (CLoopSt σ × Bytes))
  | 0, _ => none
  | fuel + 1, ls =>
    match mtInner C (fuel + 1) ls with
    | none => none
    | some (ls1, true) => some (.error ls1)
    | some (ls1, false) =>
      if ls1.inBuf.pos = ls1.inBuf.src.length then some (.ok (ls1, finish ls1.buf ls1.out))
      else if ls1.out.pos = ls1.out.size then
        mtLoop C fuel
          { ls1 with buf := (growBuf ls1.buf ls1.out).1, out := (growBuf ls1.buf ls1.out).2 }
      else mtLoop C fuel ls1

/-- `_Compressor._compress_impl` (lines 527-558): errors carry the context and
call counter as mutated at raise time. -/
def compressImpl {σ : Type} (C : CCodec σ) (fuel : Nat) (cctx : σ) (calls : Nat)
    (data : Bytes) (end_directive : Nat) (rich_mem : Bool) :
    Option (Except (σ × Nat) (σ × Nat × Bytes)) :=
  let init : BlocksBuf × OutBuf :=
    if rich_mem then initWithSize (C.compressBound data.length)
    else initAndGrow (-1)
  match cLoop C end_directive fuel ⟨cctx, ⟨data, 0⟩, init.1, init.2, calls⟩ with
  | none => none
  | some (.error ls) => some (.error (ls.cctx, ls.calls))
  | some (.ok (ls, ret)) => some (.ok (ls.cctx, ls.calls, ret))

/-- `_Compressor._compress_mt_continue_impl` (lines 560-595). -/
def compressMtImpl {σ : Type} (C : CCodec σ) (fuel : Nat) (cctx : σ) (calls : Nat)
    (data : Bytes) : Option (Except (σ × Nat) (σ × Nat × Bytes)) :=
  match mtLoop C fuel ⟨cctx, ⟨data, 0⟩, (initAndGrow (-1)).1, (initAndGrow (-1)).2, calls⟩ with
  | none => none
  | some (.error ls) => some (.error (ls.cctx, ls.calls))
  | some (.ok (ls, ret)) => some (.ok (ls.cctx, ls.calls, ret))

/-- The mutable state of a `ZstdCompressor` (`comp_calls` and `resets` are
derived ghost counters of codec-step invocations and session resets). -/
structure CompState (σ : Type) where
  cctx : σ
  use_multithreaded : Bool
  last_mode : Nat
  comp_calls : Nat
  resets : Nat
  deriving DecidableEq, Repr

/-- Fresh `ZstdCompressor.__init__` state (lines 612-614): `last_mode` starts
at FLUSH_FRAME; `use_multithreaded` comes from parameter translation. -/
def freshCompState {σ : Type} (c0 : σ) (useMT : Bool) : CompState σ :=
  { cctx := c0, use_multithreaded := useMT, last_mode := FLUSH_FRAME,
    comp_calls := 0, resets := 0 }

/-- `ZstdCompressor.compress` (lines 616-640).  The mode check raises before
the `try`, so that path leaves the state untouched; inside the `try`, any
error forces `last_mode` back to FLUSH_FRAME and resets the session. -/
def ZstdCompressor_compress {σ : Type} (C : CCodec σ) (fuel : Nat) (st : CompState σ)
    (data : Bytes) (mode : Nat) :
    Option (Except (PyErr × CompState σ) (CompState σ × Bytes)) :=
  if mode ≠ CONTINUE ∧ mode ≠ FLUSH_BLOCK ∧ mode ≠ FLUSH_FRAME then
    some (.error (.valueErr, st))
  else
    let impl :=
      if st.use_multithreaded = true ∧ mode = CONTINUE then
        compressMtImpl C fuel st.cctx st.comp_calls data
      else
        compressImpl C fuel st.cctx st.comp_calls data mode false
    match impl with
    | none => none
    | some (.error (c', calls')) =>
      some (.error (.zstdErr,
        { st with
          cctx := C.reset c'
          comp_calls := calls'
          last_mode := FLUSH_FRAME
          resets := st.resets + 1 }))
    | some (.ok (c', calls', ret)) =>
      some (.ok ({ st with cctx := c', comp_calls := calls', last_mode := mode }, ret))

/-- `ZstdCompressor.flush` (lines 642-660). -/
def ZstdCompressor_flush {σ : Type} (C : CCodec σ) (fuel : Nat) (st : CompState σ)
    (mode : Nat) : Option (Except (PyErr × CompState σ) (CompState σ × Bytes)) :=
  if mode ≠ FLUSH_BLOCK ∧ mode ≠ FLUSH_FRAME then
    some (.error (.valueErr, st))
  else
    match compressImpl C fuel st.cctx st.comp_calls [] mode false with
    | none => none
    | some (.error (c', calls')) =>
      some (.error (.zstdErr,
        { st with
          cctx := C.reset c'
          comp_calls := calls'
          last_mode := FLUSH_FRAME
          resets := st.resets + 1 }))
    | some (.ok (c', calls', ret)) =>
      some (.ok ({ st with cctx := c', comp_calls := calls', last_mode := mode }, ret))

/-- Module-level `compress(data)` (lines 980-982): a fresh compressor driven
with FLUSH_FRAME. -/
def moduleCompress {σ : Type} (C : CCodec σ) (fuel : Nat) (c0 : σ) (useMT : Bool)
    (data : Bytes) : Option (Except (PyErr × CompState σ) (CompState σ × Bytes)) :=
  ZstdCompressor_compress C fuel (freshCompState c0 useMT) data FLUSH_FRAME

/-! ## A concrete reference compression codec

Modelled from the spec: the compression side of the external codec.  CONTINUE
and FLUSH_BLOCK steps buffer input; an end-directive step builds the frame
(one length header element followed by the payload) and emits it as output
room permits, returning the number of pending bytes (0 = frame fully
flushed), after which the context returns to its initial session state. -/

/-- Compression context state: accumulated input and the pending frame tail
still to be emitted. -/
structure MState where
  acc : Bytes
  pending : Option Bytes
  deriving DecidableEq, Repr

/-- The frame format of the reference codec. -/
def encodeFrame (b : Bytes) : Bytes := b.length :: b

/-- One `ZSTD_compressStream2` call of the reference codec. -/
def mStep (s : MState) (inp : Bytes) (room : Nat) (dir : Nat) :
    Option (MState × Nat × Bytes × Nat) :=
  if dir = FLUSH_FRAME then
    let acc' := s.acc ++ inp
    let p : Bytes :=
      match s.pending with
      | none => encodeFrame acc'
      | some p => p
    let e := min room p.length
    let outB := p.take e
    let p' := p.drop e
    if p'.length = 0 then some (⟨[], none⟩, inp.length, outB, 0)
    else some (⟨acc', some p'⟩, inp.length, outB, p'.length)
  else
    some (⟨s.acc ++ inp, s.pending⟩, inp.length, [], 0)

/-- The reference compression codec instance. -/
def mCodec : CCodec MState where
  step := mStep
  reset := fun _ => ⟨[], none⟩
  compressBound := fun n => n + 1
  setPledged := fun s _ => some s
  consumed_le := by
    intro s inp room dir r h
    unfold mStep at h
    split at h
    · dsimp only at h
      split at h
      · simp only [Option.some_inj] at h
        subst h
        exact le_refl _
      · simp only [Option.some_inj] at h
        subst h
        exact le_refl _
    · simp only [Option.some_inj] at h
      subst h
      exact le_refl _
  output_le := by
    intro s inp room dir r h
    unfold mStep at h
    split at h
    · dsimp only at h
      split at h
      · simp only [Option.some_inj] at h
        subst h
        simp only [List.length_take]
        omega
      · simp only [Option.some_inj] at h
        subst h
        simp only [List.length_take]
        omega
    · simp only [Option.some_inj] at h
      subst h
      simp

/-- A codec whose step always fails, for exercising error paths. -/
def failCCodec : CCodec Unit where
  step := fun _ _ _ _ => none
  reset := fun _ => ()
  compressBound := fun n => n
  setPledged := fun s _ => some s
  consumed_le := by intro s inp room dir r h; cases h
  output_le := by intro s inp room dir r h; cases h

/-! ## Claim C6: error handling in `ZstdCompressor.compress` / `flush`

The claim as frozen says every exception raised by a compress/flush call
resets the session and forces `last_mode` to FLUSH_FRAME.  The mode-argument
`ValueError` (lines 616-623, 643-646) is raised before the `try` block, so it
propagates with the state untouched — the claim fails there.  The amended
claim restricts the reset guarantee to calls that pass mode validation. -/

/-- Counterexample to claim C6 as stated: after a successful CONTINUE call
(`last_mode` = 0), `compress` with the invalid mode 5 raises `ValueError`
while `last_mode` stays 0 ≠ FLUSH_FRAME and no session reset happens. -/
theorem C6_counterexample :
    ZstdCompressor_compress mCodec 9 (freshCompState (⟨[], none⟩ : MState) false) [5] 0
        = some (.ok (⟨⟨[5], none⟩, false, 0, 1, 0⟩, [])) ∧
    ZstdCompressor_compress mCodec 9 (⟨⟨[5], none⟩, false, 0, 1, 0⟩ : CompState MState) [] 5
        = some (.error (.valueErr, ⟨⟨[5], none⟩, false, 0, 1, 0⟩)) ∧
    (⟨⟨[5], none⟩, false, 0, 1, 0⟩ : CompState MState).last_mode ≠ FLUSH_FRAME ∧
    (⟨⟨[5], none⟩, false, 0, 1, 0⟩ : CompState MState).resets
      = (⟨⟨[5], none⟩, false, 0, 1, 0⟩ : CompState MState).resets :=
  ⟨by rfl, by rfl, by decide, rfl⟩

/-- Claim C6 (amended): for compress/flush calls that pass mode validation,
any raised exception forces `last_mode` to FLUSH_FRAME and resets the codec
session before propagating; a successful call leaves `last_mode` equal to the
mode argument.  (The pre-`try` mode-validation `ValueError` is excluded: it
propagates with the state untouched.) -/
theorem C6_error_mode_discipline {σ : Type} (C : CCodec σ) (fuel : Nat)
    (st : CompState σ) (data : Bytes) (mode : Nat) :
    (∀ e st', ¬(mode ≠ CONTINUE ∧ mode ≠ FLUSH_BLOCK ∧ mode ≠ FLUSH_FRAME) →
      ZstdCompressor_compress C fuel st data mode = some (.error (e, st')) →
      st'.last_mode = FLUSH_FRAME ∧ st'.resets = st.resets + 1 ∧
        ∃ s, st'.cctx = C.reset s) ∧
    (∀ st' ret, ZstdCompressor_compress C fuel st data mode = some (.ok (st', ret)) →
      st'.last_mode = mode) ∧
    (∀ e st', ¬(mode ≠ FLUSH_BLOCK ∧ mode ≠ FLUSH_FRAME) →
      ZstdCompressor_flush C fuel st mode = some (.error (e, st')) →
      st'.last_mode = FLUSH_FRAME ∧ st'.resets = st.resets + 1 ∧
        ∃ s, st'.cctx = C.reset s) ∧
    (∀ st' ret, ZstdCompressor_flush C fuel st mode = some (.ok (st', ret)) →
      st'.last_mode = mode) := by
  refine ⟨?_, ?_, ?_, ?_⟩
  · intro e st' hmode heq
    unfold ZstdCompressor_compress at heq
    rw [if_neg hmode] at heq
    dsimp only at heq
    split at heq
    · simp at heq
    · rename_i c' calls' himpl
      simp only [Option.some_inj, Except.error.injEq, Prod.mk.injEq] at heq
      rw [← heq.2]
      exact ⟨rfl, rfl, ⟨c', rfl⟩⟩
    · simp at heq
  · intro st' ret heq
    unfold ZstdCompressor_compress at heq
    split at heq
    · simp at heq
    · dsimp only at heq
      split at heq
      · simp at heq
      · simp at heq
      · rename_i c' calls' r himpl
        simp only [Option.some_inj, Except.ok.injEq, Prod.mk.injEq] at heq
        rw [← heq.1]
  · intro e st' hmode heq
    unfold ZstdCompressor_flush at heq
    rw [if_neg hmode] at heq
    split at heq
    · simp at heq
    · rename_i c' calls' himpl
      simp only [Option.some_inj, Except.error.injEq, Prod.mk.injEq] at heq
      rw [← heq.2]
      exact ⟨rfl, rfl, ⟨c', rfl⟩⟩
    · simp at heq
  · intro st' ret heq
    unfold ZstdCompressor_flush at heq
    split at heq
    · simp at heq
    · split at heq
      · simp at heq
      · simp at heq
      · rename_i c' calls' r himpl
        simp only [Option.some_inj, Except.ok.injEq, Prod.mk.injEq] at heq
        rw [← heq.1]

/-- Witness for the amended C6 at a failing codec: a FLUSH_FRAME compress call
that raises leaves `last_mode` = FLUSH_FRAME and one more session reset. -/
theorem C6_error_mode_discipline_witness :
    (⟨(), false, 2, 1, 1⟩ : CompState Unit).last_mode = FLUSH_FRAME ∧
    (⟨(), false, 2, 1, 1⟩ : CompState Unit).resets
      = (freshCompState () false).resets + 1 :=
  ⟨((C6_error_mode_discipline failCCodec 3 (freshCompState () false) [1] 2).1
      .zstdErr ⟨(), false, 2, 1, 1⟩ (by decide) (by rfl)).1,
   ((C6_error_mode_discipline failCCodec 3 (freshCompState () false) [1] 2).1
      .zstdErr ⟨(), false, 2, 1, 1⟩ (by decide) (by rfl)).2.1⟩

/-! ## Claim C1: one-shot round trip over the reference codec

The claim is settled against the reference codec (the real codec is an
external collaborator); the wrapper machinery — mode dispatch, the growable
output buffer, the input-merging decompressor — is the code under proof. -/

theorem writtenSoFar_write (b : BlocksBuf) (out : OutBuf) (bs : Bytes)
    (hw : BufWF b out) (hroom : out.pos + bs.length ≤ out.size) :
    writtenSoFar (bufWrite b out bs).1 (bufWrite b out bs).2
      = writtenSoFar b out ++ bs := by
  obtain ⟨ne, ll, pl, al, mx⟩ := hw
  have hgl : (bufWrite b out bs).1.blocks.getLastD []
      = writeAt (b.blocks.getLastD []) out.pos bs := by
    simp [bufWrite]
  have hdl : (bufWrite b out bs).1.blocks.dropLast = b.blocks.dropLast := by
    simp [bufWrite]
  unfold writtenSoFar
  rw [hgl, hdl]
  have hpos : (bufWrite b out bs).2.pos = out.pos + bs.length := rfl
  rw [hpos]
  unfold writeAt
  have htl : (b.blocks.getLastD []).take out.pos
      ++ (bs ++ (b.blocks.getLastD []).drop (out.pos + bs.length))
      = ((b.blocks.getLastD []).take out.pos ++ bs)
        ++ (b.blocks.getLastD []).drop (out.pos + bs.length) := by
    simp [List.append_assoc]
  rw [List.append_assoc, htl]
  have hlt : (((b.blocks.getLastD []).take out.pos ++ bs)).length
      = out.pos + bs.length := by
    simp only [List.length_append, List.length_take]
    omega
  rw [← hlt, List.take_left, List.append_assoc]

theorem writtenSoFar_grow (b : BlocksBuf) (out : OutBuf)
    (hfull : out.pos = out.size) (hw : BufWF b out) :
    writtenSoFar (growBuf b out).1 (growBuf b out).2 = writtenSoFar b out := by
  obtain ⟨ne, ll, pl, al, mx⟩ := hw
  unfold writtenSoFar
  have hgl : (growBuf b out).1.blocks.getLastD [] = List.replicate
      (growBuf b out).2.size 0 := by
    simp [growBuf]
  have hdl : (growBuf b out).1.blocks.dropLast = b.blocks := by
    simp [growBuf]
  have hp0 : (growBuf b out).2.pos = 0 := rfl
  rw [hgl, hdl, hp0]
  simp only [List.take_zero, List.append_nil]
  conv_lhs => rw [← self_eq_dropLast_snoc b.blocks ne]
  rw [List.flatten_append]
  simp only [List.flatten_cons, List.flatten_nil, List.append_nil]
  congr 1
  rw [hfull, ← ll]
  exact (List.take_length _).symm

theorem getD_table_pos (n : Nat) :
    0 < BUFFER_BLOCK_SIZE.getD n (BUFFER_BLOCK_SIZE.getLastD 0) := by
  have hD : BUFFER_BLOCK_SIZE.getD n (BUFFER_BLOCK_SIZE.getLastD 0)
      = (BUFFER_BLOCK_SIZE.get? n).getD (BUFFER_BLOCK_SIZE.getLastD 0) := by
    simp [List.getD_eq_getElem?_getD, List.get?_eq_getElem?]
  rw [hD]
  cases h : BUFFER_BLOCK_SIZE.get? n with
  | none =>
    simp only [Option.getD_none]
    decide
  | some x =>
    have hx : x ∈ BUFFER_BLOCK_SIZE := List.get?_mem h
    have hall : ∀ y ∈ BUFFER_BLOCK_SIZE, 0 < y := by decide
    simp only [Option.getD_some]
    exact hall x hx

/-- Growing an uncapped buffer always yields a nonempty fresh block. -/
theorem growBuf_size_pos (b : BlocksBuf) (out : OutBuf) (hml : b.maxLength < 0) :
    0 < (growBuf b out).2.size := by
  unfold growBuf
  dsimp only
  rw [if_neg (by omega)]
  exact getD_table_pos _

theorem reachedMaxLength_neg (b : BlocksBuf) (hml : b.maxLength < 0) :
    reachedMaxLength b = false := by
  unfold reachedMaxLength
  simp only [beq_eq_false_iff_ne, ne_eq]
  omega

/-- The FLUSH_FRAME flushing loop of `_compress_impl` over the reference
codec: with the input already consumed and a nonempty pending tail, the loop
emits exactly the pending bytes after those already written. -/
theorem cLoop_flush_mCodec :
    ∀ (fuel : Nat) (acc r : Bytes) (ls : CLoopSt MState),
      ls.cctx = ⟨acc, some r⟩ → r ≠ [] →
      BufWF ls.buf ls.out → ls.buf.maxLength = -1 →
      0 < ls.out.size - ls.out.pos →
      ls.inBuf.pos = ls.inBuf.src.length →
      r.length + 1 ≤ fuel →
      ∃ ls', cLoop mCodec FLUSH_FRAME fuel ls
        = some (.ok (ls', writtenSoFar ls.buf ls.out ++ r)) := by
  intro fuel
  induction fuel with
  | zero =>
    intro acc r ls hc hr hwf hml hroom hin hfuel
    exact absurd hfuel (by omega)
  | succ fuel ih =>
    intro acc r ls hc hr hwf hml hroom hin hfuel
    have hdrop : ls.inBuf.src.drop ls.inBuf.pos = [] := by
      rw [hin]
      exact List.drop_length _
    rw [cLoop]
    have hstep : mCodec.step ls.cctx (ls.inBuf.src.drop ls.inBuf.pos)
        (ls.out.size - ls.out.pos) FLUSH_FRAME
        = mStep ⟨acc, some r⟩ [] (ls.out.size - ls.out.pos) FLUSH_FRAME := by
      rw [hc, hdrop]
      rfl
    rw [hstep]
    unfold mStep
    rw [if_pos rfl]
    dsimp only
    simp only [List.append_nil]
    by_cases hfits : r.length ≤ ls.out.size - ls.out.pos
    · -- the whole tail fits: emit it and finish
      have hmin : min (ls.out.size - ls.out.pos) r.length = r.length :=
        min_eq_right hfits
      rw [hmin, List.take_length, List.drop_length]
      simp only [List.length_nil, if_true]
      have hroom2 : ls.out.pos + r.length ≤ ls.out.size := by omega
      have hwf1 := bufWrite_wf _ _ r hwf hroom2
      refine ⟨⟨⟨[], none⟩, ⟨ls.inBuf.src, ls.inBuf.pos + 0⟩,
        (bufWrite ls.buf ls.out r).1, (bufWrite ls.buf ls.out r).2, ls.calls + 1⟩, ?_⟩
      rw [finish_eq_writtenSoFar _ _ hwf1, writtenSoFar_write _ _ r hwf hroom2]
    · -- fill the current block, grow, and continue
      have hmin : min (ls.out.size - ls.out.pos) r.length
          = ls.out.size - ls.out.pos := by omega
      rw [hmin]
      have hdropNe : ¬((r.drop (ls.out.size - ls.out.pos)).length = 0) := by
        simp only [List.length_drop]
        omega
      rw [if_neg hdropNe]
      dsimp only
      simp only [List.length_nil, Nat.add_zero]
      rw [if_neg hdropNe]
      have hroom2 : ls.out.pos + (r.take (ls.out.size - ls.out.pos)).length
          ≤ ls.out.size := by
        simp only [List.length_take]
        omega
      have hwf1 := bufWrite_wf _ _ (r.take (ls.out.size - ls.out.pos)) hwf hroom2
      have hfull : (bufWrite ls.buf ls.out (r.take (ls.out.size - ls.out.pos))).2.pos
          = (bufWrite ls.buf ls.out (r.take (ls.out.size - ls.out.pos))).2.size := by
        show ls.out.pos + (r.take (ls.out.size - ls.out.pos)).length = ls.out.size
        simp only [List.length_take]
        omega
      rw [if_pos hfull]
      have hml1 : (bufWrite ls.buf ls.out
          (r.take (ls.out.size - ls.out.pos))).1.maxLength = -1 := by
        rw [bufWrite_maxLength]
        exact hml
      have hwfg := growBuf_wf _ _ hwf1 hfull
        (reachedMaxLength_neg _ (by rw [hml1]; decide))
      obtain ⟨ls', hrec⟩ := ih acc (r.drop (ls.out.size - ls.out.pos))
        { cctx := ⟨acc, some (r.drop (ls.out.size - ls.out.pos))⟩
          inBuf := { src := ls.inBuf.src, pos := ls.inBuf.pos }
          buf := (growBuf (bufWrite ls.buf ls.out (r.take (ls.out.size - ls.out.pos))).1
            (bufWrite ls.buf ls.out (r.take (ls.out.size - ls.out.pos))).2).1
          out := (growBuf (bufWrite ls.buf ls.out (r.take (ls.out.size - ls.out.pos))).1
            (bufWrite ls.buf ls.out (r.take (ls.out.size - ls.out.pos))).2).2
          calls := ls.calls + 1 }
        rfl
        (by
          intro hnil
          apply hdropNe
          rw [hnil]
          rfl)
        hwfg
        (by rw [growBuf_maxLength, hml1])
        (by
          dsimp only
          have := growBuf_size_pos
            (bufWrite ls.buf ls.out (r.take (ls.out.size - ls.out.pos))).1
            (bufWrite ls.buf ls.out (r.take (ls.out.size - ls.out.pos))).2
            (by rw [hml1]; decide)
          have hp0 : (growBuf (bufWrite ls.buf ls.out
              (r.take (ls.out.size - ls.out.pos))).1
              (bufWrite ls.buf ls.out (r.take (ls.out.size - ls.out.pos))).2).2.pos
              = 0 := rfl
          omega)
        (by simpa using hin)
        (by
          simp only [List.length_drop]
          omega)
      refine ⟨ls', ?_⟩
      rw [hrec]
      congr 2
      rw [writtenSoFar_grow _ _ hfull hwf1,
        writtenSoFar_write _ _ (r.take (ls.out.size - ls.out.pos)) hwf hroom2,
        List.append_assoc, List.take_append_drop]

theorem encodeFrame_length (b : Bytes) : (encodeFrame b).length = b.length + 1 := by
  simp [encodeFrame]

theorem writtenSoFar_initAndGrow (ml : Int) :
    writtenSoFar (initAndGrow ml).1 (initAndGrow ml).2 = [] := rfl

/-- `_compress_impl` over the reference codec produces exactly the frame of
the input. -/
theorem compressImpl_mCodec (data : Bytes) (fuel : Nat) (hfuel : data.length + 2 ≤ fuel) :
    ∃ (c' : MState) (calls' : Nat),
      compressImpl mCodec fuel (⟨[], none⟩ : MState) 0 data FLUSH_FRAME false
        = some (.ok (c', calls', encodeFrame data)) := by
  obtain ⟨f2, rfl⟩ : ∃ f2, fuel = f2 + 1 := ⟨fuel - 1, by omega⟩
  unfold compressImpl
  dsimp only
  have hinit : (if (false : Bool) then initWithSize (mCodec.compressBound data.length)
      else initAndGrow (-1)) = initAndGrow (-1) := rfl
  rw [hinit, cLoop]
  have hroom0 : (initAndGrow (-1)).2.size - (initAndGrow (-1)).2.pos = 32768 := rfl
  have hstep : mCodec.step (⟨[], none⟩ : MState) (data.drop 0)
      ((initAndGrow (-1)).2.size - (initAndGrow (-1)).2.pos) FLUSH_FRAME
      = mStep ⟨[], none⟩ data 32768 FLUSH_FRAME := by
    rw [hroom0, List.drop_zero]
    rfl
  rw [hstep]
  unfold mStep
  rw [if_pos rfl]
  dsimp only
  simp only [List.nil_append]
  have hwf0 := initAndGrow_wf (-1)
  have hps : (initAndGrow (-1) : BlocksBuf × OutBuf).2.pos = 0 := rfl
  have hsz : (initAndGrow (-1) : BlocksBuf × OutBuf).2.size = 32768 := rfl
  by_cases hL : (encodeFrame data).length ≤ 32768
  · have hmin : min 32768 (encodeFrame data).length = (encodeFrame data).length :=
      min_eq_right hL
    rw [hmin, List.take_length, List.drop_length]
    simp only [List.length_nil, if_true]
    have hroom2 : (initAndGrow (-1) : BlocksBuf × OutBuf).2.pos
        + (encodeFrame data).length ≤ (initAndGrow (-1)).2.size := by
      rw [hps, hsz]
      omega
    have hwf1 := bufWrite_wf _ _ (encodeFrame data) hwf0 hroom2
    refine ⟨⟨[], none⟩, 1, ?_⟩
    rw [finish_eq_writtenSoFar _ _ hwf1,
      writtenSoFar_write _ _ (encodeFrame data) hwf0 hroom2, writtenSoFar_initAndGrow,
      List.nil_append]
  · have hmin : min 32768 (encodeFrame data).length = 32768 := by omega
    rw [hmin]
    have hdropNe : ¬(((encodeFrame data).drop 32768).length = 0) := by
      simp only [List.length_drop]
      omega
    rw [if_neg hdropNe]
    dsimp only
    rw [if_neg hdropNe]
    have hroom2 : (initAndGrow (-1) : BlocksBuf × OutBuf).2.pos
        + ((encodeFrame data).take 32768).length ≤ (initAndGrow (-1)).2.size := by
      rw [hps, hsz]
      simp only [List.length_take]
      omega
    have hwf1 := bufWrite_wf _ _ ((encodeFrame data).take 32768) hwf0 hroom2
    have hfull : (bufWrite (initAndGrow (-1)).1 (initAndGrow (-1)).2
        ((encodeFrame data).take 32768)).2.pos
        = (bufWrite (initAndGrow (-1)).1 (initAndGrow (-1)).2
        ((encodeFrame data).take 32768)).2.size := by
      show (initAndGrow (-1) : BlocksBuf × OutBuf).2.pos
        + ((encodeFrame data).take 32768).length = (initAndGrow (-1)).2.size
      rw [hps, hsz]
      simp only [List.length_take]
      omega
    rw [if_pos hfull]
    have hml1 : (bufWrite (initAndGrow (-1)).1 (initAndGrow (-1)).2
        ((encodeFrame data).take 32768)).1.maxLength = -1 := rfl
    have hwfg := growBuf_wf _ _ hwf1 hfull
      (reachedMaxLength_neg _ (by rw [hml1]; decide))
    obtain ⟨ls', hrec⟩ := cLoop_flush_mCodec f2 data ((encodeFrame data).drop 32768)
      { cctx := ⟨data, some ((encodeFrame data).drop 32768)⟩
        inBuf := { src := data, pos := 0 + data.length }
        buf := (growBuf (bufWrite (initAndGrow (-1)).1 (initAndGrow (-1)).2
          ((encodeFrame data).take 32768)).1
          (bufWrite (initAndGrow (-1)).1 (initAndGrow (-1)).2
          ((encodeFrame data).take 32768)).2).1
        out := (growBuf (bufWrite (initAndGrow (-1)).1 (initAndGrow (-1)).2
          ((encodeFrame data).take 32768)).1
          (bufWrite (initAndGrow (-1)).1 (initAndGrow (-1)).2
          ((encodeFrame data).take 32768)).2).2
        calls := 0 + 1 }
      rfl
      (by
        intro hnil
        apply hdropNe
        rw [hnil]
        rfl)
      hwfg
      (by rw [growBuf_maxLength, hml1])
      (by
        dsimp only
        have := growBuf_size_pos
          (bufWrite (initAndGrow (-1)).1 (initAndGrow (-1)).2
            ((encodeFrame data).take 32768)).1
          (bufWrite (initAndGrow (-1)).1 (initAndGrow (-1)).2
            ((encodeFrame data).take 32768)).2
          (by rw [hml1]; decide)
        have hp0 : (growBuf (bufWrite (initAndGrow (-1)).1 (initAndGrow (-1)).2
            ((encodeFrame data).take 32768)).1
            (bufWrite (initAndGrow (-1)).1 (initAndGrow (-1)).2
            ((encodeFrame data).take 32768)).2).2.pos = 0 := rfl
        omega)
      (by simp)
      (by
        simp only [List.length_drop, encodeFrame_length]
        omega)
    refine ⟨ls'.cctx, ls'.calls, ?_⟩
    rw [hrec]
    have hbytes : writtenSoFar (growBuf (bufWrite (initAndGrow (-1)).1 (initAndGrow (-1)).2
        ((encodeFrame data).take 32768)).1
        (bufWrite (initAndGrow (-1)).1 (initAndGrow (-1)).2
        ((encodeFrame data).take 32768)).2).1
        (growBuf (bufWrite (initAndGrow (-1)).1 (initAndGrow (-1)).2
        ((encodeFrame data).take 32768)).1
        (bufWrite (initAndGrow (-1)).1 (initAndGrow (-1)).2
        ((encodeFrame data).take 32768)).2).2
        ++ (encodeFrame data).drop 32768 = encodeFrame data := by
      rw [writtenSoFar_grow _ _ hfull hwf1,
        writtenSoFar_write _ _ ((encodeFrame data).take 32768) hwf0 hroom2,
        writtenSoFar_initAndGrow, List.nil_append, List.take_append_drop]
    rw [hbytes]

/-- Module-level `compress` over the reference codec yields the frame. -/
theorem moduleCompress_mCodec (useMT : Bool) (data : Bytes) :
    ∃ stC : CompState MState,
      moduleCompress mCodec (data.length + 2) (⟨[], none⟩ : MState) useMT data
        = some (.ok (stC, encodeFrame data)) := by
  unfold moduleCompress ZstdCompressor_compress
  rw [if_neg (by simp [CONTINUE, FLUSH_BLOCK, FLUSH_FRAME])]
  dsimp only
  rw [if_neg (by simp [CONTINUE, FLUSH_FRAME])]
  have hcc : (freshCompState (⟨[], none⟩ : MState) useMT).cctx = ⟨[], none⟩ := rfl
  have hcl : (freshCompState (⟨[], none⟩ : MState) useMT).comp_calls = 0 := rfl
  rw [hcc, hcl]
  obtain ⟨c', calls', himpl⟩ := compressImpl_mCodec data (data.length + 2) (le_refl _)
  rw [himpl]
  exact ⟨_, rfl⟩

theorem writtenSoFar_initWithSize (n : Nat) :
    writtenSoFar (initWithSize n).1 (initWithSize n).2 = [] := rfl

/-- One reference-codec decompress step over a whole frame with exactly the
declared room: consumes everything, emits the payload, reports a frame edge. -/
theorem nStep_frame (b : Bytes) :
    nStep ⟨none, []⟩ (b.length :: b) b.length
      = some (⟨none, []⟩, 1 + b.length, b, 0) := by
  unfold nStep
  rw [if_neg (by simp)]
  have hcons : nConsume none (b.length :: b) = (none, b, 1 + b.length) := by
    unfold nConsume
    simp
  rw [hcons]
  dsimp only
  simp

/-- `decompress(frame)` on a fresh endless decompressor over the reference
codec returns the payload in one call. -/
theorem moduleDecompress_mCodec (b : Bytes) :
    moduleDecompress nCodec 1 (⟨none, []⟩ : NState) (encodeFrame b)
      = some (.ok b) := by
  unfold moduleDecompress streamDecompress streamDecompressCore
  rw [if_neg (by simp [freshEndless])]
  dsimp only
  rw [if_pos ⟨rfl, rfl, by decide, rfl⟩]
  have hprep : prepInput (freshEndless (⟨none, []⟩ : NState)) (encodeFrame b)
      = (freshEndless ⟨none, []⟩, false, ⟨encodeFrame b, 0⟩) := by
    unfold prepInput
    rw [if_pos (show (freshEndless (⟨none, []⟩ : NState)).in_begin
      = (freshEndless (⟨none, []⟩ : NState)).in_end from rfl)]
  rw [hprep]
  have hfcs : nCodec.getFrameContentSize (encodeFrame b) = some b.length := rfl
  rw [hfcs]
  have hwfI := initWithSize_wf b.length
  have hroomI : (initWithSize b.length : BlocksBuf × OutBuf).2.pos + b.length
      ≤ (initWithSize b.length).2.size := by
    show 0 + b.length ≤ b.length
    omega
  have hwfI1 := bufWrite_wf _ _ b hwfI hroomI
  have himpl : decompressImpl nCodec 1 (freshEndless (⟨none, []⟩ : NState))
      ⟨encodeFrame b, 0⟩ (-1) (some b.length)
      = some (.ok
          ((⟨⟨none, []⟩, true, none, 0, 0, 0, false, true, .endless, 1, 0⟩ : DState NState),
            ⟨encodeFrame b, b.length + 1⟩, b)) := by
    unfold decompressImpl
    dsimp only [freshEndless]
    rw [if_neg (by
      rintro ⟨-, -, hp⟩
      simp [encodeFrame] at hp)]
    rw [dLoop]
    have hstep2 : nCodec.step (⟨none, []⟩ : NState) ((encodeFrame b).drop 0)
        ((initWithSize b.length).2.size - (initWithSize b.length).2.pos)
        = nStep ⟨none, []⟩ (b.length :: b) b.length := by
      rw [List.drop_zero]
      rfl
    rw [hstep2, nStep_frame]
    dsimp only
    rw [if_neg (by simp [freshEndless])]
    rw [if_pos ⟨rfl, by
      show 0 + (1 + b.length) = (encodeFrame b).length
      simp [encodeFrame]
      omega⟩]
    dsimp only [dWriteback]
    rw [finish_eq_writtenSoFar _ _ hwfI1, writtenSoFar_write _ _ b hwfI hroomI,
      writtenSoFar_initWithSize, List.nil_append]
    have hps2 : 0 + (1 + b.length) = b.length + 1 := by omega
    rw [hps2]
    rfl
  rw [himpl]
  dsimp only
  rw [if_pos (show b.length + 1 = (encodeFrame b).length by simp [encodeFrame])]
  rw [if_neg (by simp)]
  rw [if_neg (by simp)]
  rw [if_neg (by
    rintro ⟨h1, -⟩
    omega)]
  dsimp only
  rw [if_neg (by simp)]

/-- Composition of one-shot `compress` and `decompress` over the reference
codec, as the module functions compose them. -/
def roundTrip (useMT : Bool) (data : Bytes) : Option Bytes :=
  match moduleCompress mCodec (data.length + 2) (⟨[], none⟩ : MState) useMT data with
  | some (.ok (_, c)) =>
    match moduleDecompress nCodec 1 (⟨none, []⟩ : NState) c with
    | some (.ok r) => some r
    | _ => none
  | _ => none

/-- Claim C1: decompressing the result of one-shot compression returns the
original bytes, for every input and either threading configuration. -/
theorem C1_round_trip (useMT : Bool) (data : Bytes) :
    roundTrip useMT data = some data := by
  unfold roundTrip
  obtain ⟨stC, hC⟩ := moduleCompress_mCodec useMT data
  rw [hC]
  dsimp only
  rw [moduleDecompress_mCodec data]

/-! ## Claim C7: post-loop bookkeeping of `_stream_decompress` -/

/-- The unconsumed slice held in the carry-over buffer:
`self._input_buffer[self._in_begin : self._in_end]`. -/
def carryOver {σ : Type} (st : DState σ) : Bytes :=
  ((st.input_buffer.getD []).drop st.in_begin).take (st.in_end - st.in_begin)

/-- The `_decompress_impl` loop never rewinds the input cursor, never moves it
past the end of the view, and never replaces the backing bytes of the view. -/
theorem dLoop_cursor {σ : Type} (D : DCodec σ) (dtype : DType) :
    ∀ (fuel : Nat) (ls ls' : DLoopSt σ), ls.inBuf.pos ≤ ls.inBuf.src.length →
      dLoop D dtype fuel ls = some (.ok ls') →
      ls'.inBuf.src = ls.inBuf.src ∧ ls.inBuf.pos ≤ ls'.inBuf.pos ∧
        ls'.inBuf.pos ≤ ls'.inBuf.src.length := by
  intro fuel
  induction fuel with
  | zero =>
    intro ls ls' hpos h
    simp [dLoop] at h
  | succ fuel ih =>
    intro ls ls' hpos h
    rw [dLoop] at h
    cases hstep : D.step ls.dctx (ls.inBuf.src.drop ls.inBuf.pos)
        (ls.out.size - ls.out.pos) with
    | none =>
      rw [hstep] at h
      simp at h
    | some r =>
      obtain ⟨d', consumed, outBytes, ret⟩ := r
      rw [hstep] at h
      have hcons : consumed ≤ (ls.inBuf.src.drop ls.inBuf.pos).length :=
        D.consumed_le _ _ _ _ hstep
      rw [List.length_drop] at hcons
      dsimp only at h
      split at h
      · split at h
        · simp only [Option.some_inj, Except.ok.injEq] at h
          subst h
          refine ⟨rfl, ?_, ?_⟩ <;> (dsimp only; omega)
        · split at h
          · split at h
            · simp only [Option.some_inj, Except.ok.injEq] at h
              subst h
              refine ⟨rfl, ?_, ?_⟩ <;> (dsimp only; omega)
            · obtain ⟨h1, h2, h3⟩ := ih _ _ (by dsimp only; omega) h
              dsimp only at h1 h2
              exact ⟨h1, by omega, h3⟩
          · split at h
            · simp only [Option.some_inj, Except.ok.injEq] at h
              subst h
              refine ⟨rfl, ?_, ?_⟩ <;> (dsimp only; omega)
            · obtain ⟨h1, h2, h3⟩ := ih _ _ (by dsimp only; omega) h
              dsimp only at h1 h2
              exact ⟨h1, by omega, h3⟩
      · split at h
        · simp only [Option.some_inj, Except.ok.injEq] at h
          subst h
          refine ⟨rfl, ?_, ?_⟩ <;> (dsimp only; omega)
        · split at h
          · split at h
            · simp only [Option.some_inj, Except.ok.injEq] at h
              subst h
              refine ⟨rfl, ?_, ?_⟩ <;> (dsimp only; omega)
            · obtain ⟨h1, h2, h3⟩ := ih _ _ (by dsimp only; omega) h
              dsimp only at h1 h2
              exact ⟨h1, by omega, h3⟩
          · split at h
            · simp only [Option.some_inj, Except.ok.injEq] at h
              subst h
              refine ⟨rfl, ?_, ?_⟩ <;> (dsimp only; omega)
            · obtain ⟨h1, h2, h3⟩ := ih _ _ (by dsimp only; omega) h
              dsimp only at h1 h2
              exact ⟨h1, by omega, h3⟩

/-- Instance fields a successful `_decompress_impl` call leaves untouched, and
the input-cursor facts it guarantees. -/
theorem decompressImpl_ok_inv {σ : Type} (D : DCodec σ) (fuel : Nat) (st : DState σ)
    (ib : InBuf) (ml : Int) (ds : Option Nat) (st2 : DState σ) (ib2 : InBuf) (ret : Bytes)
    (hpos : ib.pos ≤ ib.src.length)
    (h : decompressImpl D fuel st ib ml ds = some (.ok (st2, ib2, ret))) :
    st2.dtype = st.dtype ∧ st2.needs_input = st.needs_input ∧
    st2.input_buffer = st.input_buffer ∧ st2.input_buffer_size = st.input_buffer_size ∧
    st2.in_begin = st.in_begin ∧ st2.in_end = st.in_end ∧
    ib2.src = ib.src ∧ ib.pos ≤ ib2.pos ∧ ib2.pos ≤ ib2.src.length := by
  unfold decompressImpl at h
  split at h
  · simp only [Option.some_inj, Except.ok.injEq, Prod.mk.injEq] at h
    obtain ⟨h1, h2, -⟩ := h
    subst h1
    subst h2
    exact ⟨rfl, rfl, rfl, rfl, rfl, rfl, rfl, Nat.le_refl _, hpos⟩
  · dsimp only at h
    split at h
    · simp at h
    · simp at h
    · rename_i ls heq
      simp only [Option.some_inj, Except.ok.injEq, Prod.mk.injEq] at h
      obtain ⟨h1, h2, -⟩ := h
      obtain ⟨hs, hp1, hp2⟩ := dLoop_cursor D st.dtype fuel _ ls hpos heq
      subst h1
      subst h2
      exact ⟨rfl, rfl, rfl, rfl, rfl, rfl, hs, hp1, hp2⟩

/-- Input preparation: the produced view starts at position 0; when the
carry-over buffer is not used the state is unchanged and the view is `data`;
when it is used, the view is exactly the carry-over slice of the updated
state. -/
theorem prepInput_view {σ : Type} (st : DState σ) (data : Bytes)
    (hble : st.in_begin ≤ st.in_end) :
    (prepInput st data).2.2.pos = 0 ∧
    ((prepInput st data).2.1 = false →
      (prepInput st data).1 = st ∧ (prepInput st data).2.2.src = data) ∧
    ((prepInput st data).2.1 = true →
      (prepInput st data).2.2.src = carryOver (prepInput st data).1) := by
  unfold prepInput
  split
  · exact ⟨rfl, fun _ => ⟨rfl, rfl⟩, fun hc => by simp at hc⟩
  · split
    · exact ⟨rfl, fun hc => by simp at hc, fun _ => rfl⟩
    · dsimp only
      split
      · refine ⟨rfl, fun hc => by simp at hc, fun _ => ?_⟩
        dsimp only [carryOver]
        simp only [Option.getD_some, Nat.sub_zero]
      · split
        · refine ⟨rfl, fun hc => by simp at hc, fun _ => ?_⟩
          dsimp only [carryOver]
          simp only [Option.getD_some, Nat.sub_zero]
        · refine ⟨rfl, fun hc => by simp at hc, fun _ => ?_⟩
          dsimp only [carryOver]
          simp only [Option.getD_some]
          have he : st.in_end - st.in_begin + data.length
              = st.in_end + data.length - st.in_begin := by omega
          rw [he]

/-- Counterexample to claim C7 as stated: a fresh single-frame
`ZstdDecompressor` fed one complete frame with the default `max_length = -1`
consumes the whole merged input view and returns 1 byte — so the returned
length does not equal `max_length` — yet `needs_input` is false afterwards,
because `eof` was reached.  Line 876 clears `needs_input` when
`len(ret) == max_length` OR at the terminal boundary, not only in the
first case as the claim states. -/
theorem C7_counterexample :
    streamDecompressCore nCodec 2 (freshDecompressor (⟨none, []⟩ : NState)) [1, 7] (-1)
      = some (.ok (⟨⟨none, []⟩, false, none, 0, 0, 0, true, true, .decompressor, 1, 0⟩,
          [7], ⟨[1, 7], 2⟩)) ∧
    (⟨[1, 7], 2⟩ : InBuf).pos = (⟨[1, 7], 2⟩ : InBuf).src.length ∧
    ¬((([7] : Bytes).length : Int) = -1) ∧
    (⟨⟨none, []⟩, false, none, 0, 0, 0, true, true, .decompressor, 1, 0⟩ :
        DState NState).needs_input = false :=
  ⟨by rfl, by decide, by decide, by rfl⟩

/-- Claim C7 (amended): post-loop bookkeeping of a successful
`_stream_decompress` call.  If the merged input view was fully consumed,
`needs_input` is cleared exactly when the output length hit `max_length` or —
for the single-frame type — the end of the frame was reached, and exactly
when the output hit `max_length` strictly inside a frame for the endless
type; if input was left unconsumed, `needs_input` is false and the carry-over
buffer holds exactly the unconsumed tail of the view. -/
theorem C7_bookkeeping {σ : Type} (D : DCodec σ) (fuel : Nat) (st : DState σ)
    (data : Bytes) (ml : Int) (st' : DState σ) (ret : Bytes) (ib' : InBuf)
    (hble : st.in_begin ≤ st.in_end)
    (h : streamDecompressCore D fuel st data ml = some (.ok (st', ret, ib'))) :
    (ib'.pos = ib'.src.length →
      (st.dtype = .decompressor →
        (st'.needs_input = false ↔ ((ret.length : Int) = ml ∨ st'.eof = true))) ∧
      (st.dtype = .endless →
        (st'.needs_input = false ↔
          ((ret.length : Int) = ml ∧ st'.at_frame_edge = false)))) ∧
    (ib'.pos ≠ ib'.src.length →
      st'.needs_input = false ∧ carryOver st' = ib'.src.drop ib'.pos) := by
  unfold streamDecompressCore at h
  split at h
  · simp at h
  · dsimp only at h
    split at h
    · simp at h
    · simp at h
    · rename_i st2 ib2 r heq
      obtain ⟨hpos0, hFalse, hTrue⟩ := prepInput_view st data hble
      have hple : (prepInput st data).2.2.pos ≤ (prepInput st data).2.2.src.length := by
        rw [hpos0]
        exact Nat.zero_le _
      obtain ⟨hdt, hni0, hbuf, hsz, hbg, hed, hsrc, hp1, hp2⟩ :=
        decompressImpl_ok_inv D fuel _ _ ml _ st2 ib2 r hple heq
      have hpdt : (prepInput st data).1.dtype = st.dtype := (prepInput_inv st data).1
      split at h
      · -- all of the input view was consumed
        rename_i hfull
        simp only [Option.some_inj, Except.ok.injEq, Prod.mk.injEq] at h
        obtain ⟨h1, h2, h3⟩ := h
        subst h2
        subst h3
        have hni4 : st'.needs_input
            = (if st2.dtype = .decompressor then
                 if (r.length : Int) = ml ∨ st2.eof = true then false else true
               else
                 if (r.length : Int) = ml ∧ st2.at_frame_edge = false then false
                 else true) := by
          rw [← h1]
          by_cases hu : (prepInput st data).2.1 = true
          · rw [if_pos hu]
          · rw [if_neg hu]
        have heof4 : st'.eof = st2.eof := by
          rw [← h1]
          by_cases hu : (prepInput st data).2.1 = true
          · rw [if_pos hu]
          · rw [if_neg hu]
        have hafe4 : st'.at_frame_edge = st2.at_frame_edge := by
          rw [← h1]
          by_cases hu : (prepInput st data).2.1 = true
          · rw [if_pos hu]
          · rw [if_neg hu]
        refine ⟨fun _ => ⟨fun hd => ?_, fun hd => ?_⟩, fun hne => absurd hfull hne⟩
        · rw [hni4, heof4, hdt, hpdt, hd, if_pos rfl]
          by_cases hc : (r.length : Int) = ml ∨ st2.eof = true
          · rw [if_pos hc]
            simp [hc]
          · rw [if_neg hc]
            simp [hc]
        · rw [hni4, hafe4, hdt, hpdt, hd, if_neg (by decide)]
          by_cases hc : (r.length : Int) = ml ∧ st2.at_frame_edge = false
          · rw [if_pos hc]
            simp [hc]
          · rw [if_neg hc]
            simp [hc]
      · -- unconsumed input remains
        rename_i hne
        simp only [Option.some_inj, Except.ok.injEq, Prod.mk.injEq] at h
        obtain ⟨h1, h2, h3⟩ := h
        subst h2
        subst h3
        refine ⟨fun hq => absurd hq hne, fun _ => ⟨?_, ?_⟩⟩
        · rw [← h1]
          by_cases hu : (prepInput st data).2.1 = false
          · rw [if_pos hu]
          · rw [if_neg hu]
        · rw [← h1]
          by_cases hu : (prepInput st data).2.1 = false
          · rw [if_pos hu]
            dsimp only [carryOver]
            simp only [Option.getD_some, Nat.sub_zero, List.drop_zero]
            dsimp only [writeAt]
            simp only [List.take_zero, List.nil_append, Nat.zero_add]
            have hlt : (ib2.src.drop ib2.pos).length = ib2.src.length - ib2.pos :=
              List.length_drop _ _
            rw [← hlt, List.take_left]
          · have ht : (prepInput st data).2.1 = true := by
              revert hu
              cases (prepInput st data).2.1 <;> simp
            rw [if_neg hu]
            dsimp only [carryOver]
            rw [hbuf, hbg, hed, hsrc, hTrue ht]
            dsimp only [carryOver]
            rw [List.drop_take, List.drop_drop]
            rw [← Nat.sub_sub]

/-- Witness for the amended C7: the counterexample run instantiates the
theorem — all input consumed, and the consumed-all clause evaluates as
stated. -/
theorem C7_bookkeeping_witness :
    ((⟨[1, 7], 2⟩ : InBuf).pos = (⟨[1, 7], 2⟩ : InBuf).src.length →
      ((freshDecompressor (⟨none, []⟩ : NState)).dtype = .decompressor →
        ((⟨⟨none, []⟩, false, none, 0, 0, 0, true, true, .decompressor, 1, 0⟩ :
            DState NState).needs_input = false ↔
          ((([7] : Bytes).length : Int) = -1 ∨
            (⟨⟨none, []⟩, false, none, 0, 0, 0, true, true, .decompressor, 1, 0⟩ :
              DState NState).eof = true))) ∧
      ((freshDecompressor (⟨none, []⟩ : NState)).dtype = .endless →
        ((⟨⟨none, []⟩, false, none, 0, 0, 0, true, true, .decompressor, 1, 0⟩ :
            DState NState).needs_input = false ↔
          ((([7] : Bytes).length : Int) = -1 ∧
            (⟨⟨none, []⟩, false, none, 0, 0, 0, true, true, .decompressor, 1, 0⟩ :
              DState NState).at_frame_edge = false)))) ∧
    ((⟨[1, 7], 2⟩ : InBuf).pos ≠ (⟨[1, 7], 2⟩ : InBuf).src.length →
      (⟨⟨none, []⟩, false, none, 0, 0, 0, true, true, .decompressor, 1, 0⟩ :
          DState NState).needs_input = false ∧
      carryOver (⟨⟨none, []⟩, false, none, 0, 0, 0, true, true, .decompressor, 1, 0⟩ :
          DState NState)
        = (⟨[1, 7], 2⟩ : InBuf).src.drop (⟨[1, 7], 2⟩ : InBuf).pos) :=
  C7_bookkeeping nCodec 2 (freshDecompressor (⟨none, []⟩ : NState)) [1, 7] (-1)
    ⟨⟨none, []⟩, false, none, 0, 0, 0, true, true, .decompressor, 1, 0⟩ [7] ⟨[1, 7], 2⟩
    (by decide) (by rfl)

/-! ## `compress_stream` (lines 1037-1179) and claim C9

The input stream is modelled as the list of results of successive `readinto`
calls (`none` = a non-blocking read that produced no bytes yet, `some chunk`
= `chunk.length` bytes read into the input block); the output stream as the
list of block prefixes handed to `output_stream.write` by `_write_to_output`
(an empty output block is not written, lines 1003-1018).  The `callback`
variant and dictionary loading are not modelled (`callback = None`,
`zstd_dict = None`), and `ZSTD_createCCtx` never fails in the model. -/

/-- Observable state threaded through the read loop of `compress_stream`:
the codec context, the chunks written to the output stream, the two byte
totals, and a ghost count of codec compress-step invocations. -/
structure StreamSt (σ : Type) where
  cctx : σ
  writes : List Bytes
  total_input_size : Nat
  total_output_size : Nat
  comp_calls : Nat
  deriving Repr

/-- State of one output-block iteration: context, input view, the bytes
accumulated in the output block since `out_buf.pos = 0`, and the ghost step
count. -/
structure CsIter (σ : Type) where
  cctx : σ
  inBuf : InBuf
  outAcc : Bytes
  calls : Nat
  deriving Repr

/-- The innermost multithreaded loop (lines 1137-1142): step with
`ZSTD_e_continue` until the output block fills, the input view is consumed,
or the codec reports an error. -/
def csMt {σ : Type} (C : CCodec σ) (write_size : Nat) :
    Nat → CsIter σ → Option (Except (CsIter σ) (CsIter σ × Nat))
  | 0, _ => none
  | fuel + 1, it =>
    match C.step it.cctx (it.inBuf.src.drop it.inBuf.pos) (write_size - it.outAcc.length)
        CONTINUE with
    | none => some (.error { it with calls := it.calls + 1 })
    | some (c', consumed, outBytes, ret) =>
      let it1 : CsIter σ :=
        { cctx := c'
          inBuf := { it.inBuf with pos := it.inBuf.pos + consumed }
          outAcc := it.outAcc ++ outBytes
          calls := it.calls + 1 }
      if it1.outAcc.length = write_size ∨ it1.inBuf.pos = it1.inBuf.src.length then
        some (.ok (it1, ret))
      else csMt C write_size fuel it1

/-- The "Compress & write" loop (lines 1131-1167): reset the output block,
invoke the codec (one step, or the multithreaded inner loop when the
directive is `ZSTD_e_continue`), raise on codec error, account for and write
the produced block prefix, and repeat until the directive is satisfied. -/
def csInner {σ : Type} (C : CCodec σ) (useMT : Bool) (write_size : Nat) (dir : Nat) :
    Nat → StreamSt σ → InBuf → Option (Except (StreamSt σ) (StreamSt σ × InBuf))
  | 0, _, _ => none
  | fuel + 1, ss, ib =>
    let stepRes : Option (Except (CsIter σ) (CsIter σ × Nat)) :=
      if useMT = true ∧ dir = CONTINUE then
        csMt C write_size (fuel + 1) ⟨ss.cctx, ib, [], ss.comp_calls⟩
      else
        match C.step ss.cctx (ib.src.drop ib.pos) write_size dir with
        | none => some (.error ⟨ss.cctx, ib, [], ss.comp_calls + 1⟩)
        | some (c', consumed, outBytes, ret) =>
          some (.ok (⟨c', { ib with pos := ib.pos + consumed }, outBytes,
            ss.comp_calls + 1⟩, ret))
    match stepRes with
    | none => none
    | some (.error it) =>
      some (.error { ss with cctx := it.cctx, comp_calls := it.calls })
    | some (.ok (it, ret)) =>
      let ss1 : StreamSt σ :=
        { cctx := it.cctx
          writes := ss.writes ++ (if it.outAcc.isEmpty then [] else [it.outAcc])
          total_input_size := ss.total_input_size
          total_output_size := ss.total_output_size + it.outAcc.length
          comp_calls := it.calls }
      if dir = CONTINUE then
        if it.inBuf.pos = it.inBuf.src.length then some (.ok (ss1, it.inBuf))
        else csInner C useMT write_size dir fuel ss1 it.inBuf
      else
        if ret = 0 then some (.ok (ss1, it.inBuf))
        else csInner C useMT write_size dir fuel ss1 it.inBuf

/-- The read loop of `compress_stream` (lines 1109-1171).  `reads` is the
sequence of `readinto` results; exhausting it (the model has no further
answer) and running out of fuel are both the `none` model artifact. -/
def csReadLoop {σ : Type} (C : CCodec σ) (useMT : Bool) (read_size write_size : Nat) :
    Nat → List (Option Bytes) → StreamSt σ → Option (Except PyErr (StreamSt σ))
  | 0, _, _ => none
  | fuel + 1, reads, ss =>
    match reads with
    | [] => none
    | none :: rest => csReadLoop C useMT read_size write_size fuel rest ss
    | some chunk :: rest =>
      if read_size < chunk.length then some (.error .valueErr)
      else if chunk.length = 0 ∧ ss.total_input_size = 0 then some (.ok ss)
      else
        let ss0 : StreamSt σ :=
          { ss with total_input_size := ss.total_input_size + chunk.length }
        let dir : Nat := if chunk.length = 0 then FLUSH_FRAME else CONTINUE
        match csInner C useMT write_size dir (fuel + 1) ss0 ⟨chunk, 0⟩ with
        | none => none
        | some (.error _) => some (.error .zstdErr)
        | some (.ok (ss1, _)) =>
          if chunk.length = 0 then some (.ok ss1)
          else csReadLoop C useMT read_size write_size fuel rest ss1

/-- `compress_stream` (lines 1037-1179) with an `output_stream` given and
`callback = None`, `zstd_dict = None`: parameter validation, compression
parameter setup, pledged-size registration, then the read loop; returns the
final observable state together with the returned pair
`(total_input_size, total_output_size)` (line 1175). -/
def compressStream {σ : Type} (C : CCodec σ) (supportMT : Bool)
    (zstdVer minLevel : Int) (paramOk : Int → Int → Bool) (c0 : σ) (fuel : Nat)
    (level_or_option : Option LevelOrOption) (pledged_input_size : Option Nat)
    (read_size write_size : Nat) (reads : List (Option Bytes)) :
    Option (Except PyErr (StreamSt σ × Nat × Nat)) :=
  if read_size = 0 ∨ write_size = 0 then some (.error .valueErr)
  else if pledged_input_size.getD 0 > 18446744073709551615 then
    some (.error .valueErr)
  else
    let pr : Except PyErr (List (Int × Int) × Int × Bool) :=
      match level_or_option with
      | none => .ok ([], 0, false)
      | some lo => setCParameters supportMT zstdVer minLevel paramOk [] lo
    match pr with
    | .error e => some (.error e)
    | .ok (_, _, use_multithreaded) =>
      let c1 : Option σ :=
        match pledged_input_size with
        | none => some c0
        | some n => C.setPledged c0 n
      match c1 with
      | none => some (.error .zstdErr)
      | some c2 =>
        match csReadLoop C use_multithreaded read_size write_size fuel reads
            ⟨c2, [], 0, 0, 0⟩ with
        | none => none
        | some (.error e) => some (.error e)
        | some (.ok ss) => some (.ok (ss, ss.total_input_size, ss.total_output_size))

/-- Claim C9: if the very first `readinto` call returns 0 bytes,
`compress_stream` writes nothing to the output stream, never invokes the
codec compress step, and returns `(0, 0)` — no empty frame is produced for
empty input (the break at line 1122 precedes any compression). -/
theorem C9_empty_first_read {σ : Type} (C : CCodec σ) (supportMT : Bool)
    (zstdVer minLevel : Int) (paramOk : Int → Int → Bool) (c0 : σ) (fuel : Nat)
    (lo : Option LevelOrOption) (pledged : Option Nat) (read_size write_size : Nat)
    (rest : List (Option Bytes)) (ss : StreamSt σ) (tin tout : Nat)
    (h : compressStream C supportMT zstdVer minLevel paramOk c0 fuel lo pledged
        read_size write_size (some [] :: rest) = some (.ok (ss, tin, tout))) :
    ss.writes = [] ∧ ss.comp_calls = 0 ∧ tin = 0 ∧ tout = 0 := by
  unfold compressStream at h
  split at h
  · simp at h
  · split at h
    · simp at h
    · dsimp only at h
      split at h
      · simp at h
      · rename_i cctxL lvl use_mt hpr
        split at h
        · simp at h
        · rename_i c2 hc2
          cases fuel with
          | zero => simp [csReadLoop] at h
          | succ fuel =>
            have hloop : csReadLoop C use_mt read_size write_size (fuel + 1)
                (some [] :: rest) ⟨c2, [], 0, 0, 0⟩ = some (.ok ⟨c2, [], 0, 0, 0⟩) := by
              rw [csReadLoop]
              dsimp only
              rw [if_neg (by simp)]
              rw [if_pos ⟨rfl, rfl⟩]
            rw [hloop] at h
            dsimp only at h
            simp only [Option.some_inj, Except.ok.injEq, Prod.mk.injEq] at h
            obtain ⟨h1, h2, h3⟩ := h
            subst h1
            subst h2
            subst h3
            exact ⟨rfl, rfl, rfl, rfl⟩

/-- Witness for C9: the reference compression codec, default read and write
sizes, an input source answering `b''` immediately. -/
theorem C9_empty_first_read_witness :
    (⟨(⟨[], none⟩ : MState), [], 0, 0, 0⟩ : StreamSt MState).writes = [] ∧
    (⟨(⟨[], none⟩ : MState), [], 0, 0, 0⟩ : StreamSt MState).comp_calls = 0 ∧
    (0 : Nat) = 0 ∧ (0 : Nat) = 0 :=
  C9_empty_first_read mCodec true 10500 (-131072) (fun _ _ => true) (⟨[], none⟩ : MState)
    3 none none 131072 131591 [] ⟨(⟨[], none⟩ : MState), [], 0, 0, 0⟩ 0 0 (by rfl)

end Pyzstd
